import Mathlib

/-!
A verification development for the `xdoctest` doctest parser
(`src/xdoctest/parser.py`).

The parser is shallowly embedded here.  Lines of text are modelled as
`List Char` (a docstring line never contains a line separator after
`str.splitlines`).  External collaborators that are out of scope for this
repository (the syntactic balance oracle `static.is_balanced_statement`,
the host AST parser `ast.parse`, and directive extraction
`directive.extract`) are passed in as a `Collab` record of functions, as
the specification treats them as interfaces only.

Modelling notes:
  * Python `str.strip` is modelled over the whitespace characters
    `' '`, `'\t'`, `'\r'`, `'\n'` (the characters that can occur in the
    modelled input); exotic unicode whitespace is outside the model.
  * Python exceptions are modelled with `Except`; the distinct raise
    sites of the parser get distinct `PErr` constructors.
  * Python `list[a:b]` slicing (with non-negative bounds) is
    `(take b).drop a`; `list[a:]` is `drop a`.
-/

deriving instance DecidableEq for Except

namespace Xdoctest

/-- A single physical line of a docstring (no newline characters inside). -/
abbrev Line := List Char

/-- Convert a string literal to a modelled line. -/
def str (s : String) : Line := s.toList

/-- Whitespace test used by Python `str.strip` (restricted to the
characters representable in the model). -/
def isWS (c : Char) : Bool := c.isWhitespace

/-- Python `s.lstrip()`. -/
def pyLstrip (l : Line) : Line := l.dropWhile isWS

/-- Python `s.rstrip()`. -/
def pyRstrip (l : Line) : Line := (l.reverse.dropWhile isWS).reverse

/-- Python `s.strip()`. -/
def pyStrip (l : Line) : Line := pyRstrip (pyLstrip l)

/-- Number of leading space characters of a line. -/
def leadingSpaces (l : Line) : Nat := (l.takeWhile (fun c => c = ' ')).length

/-- The match of `INDENT_RE = re.compile('^([ ]*)(?=\S)')` against a single
line: the count of leading spaces provided they are followed by a
non-whitespace character, and `0` when the regex does not match
(`match is None` in `_label_docsrc_lines` / `_package_chunk`). -/
def pyLineIndent (l : Line) : Nat :=
  let n := leadingSpaces l
  match l.drop n with
  | [] => 0
  | c :: _ => if isWS c then 0 else n

/-- The match length of `INDENT_RE` against one `'\n'`-separated segment,
or `none` when the regex does not match there (used by
`min_indentation`, where non-matching lines contribute nothing). -/
def lineIndentOpt (l : Line) : Option Nat :=
  let n := leadingSpaces l
  match l.drop n with
  | [] => none
  | c :: _ => if isWS c then none else some n

/-- Python `s.split('\n')` (keeps empty trailing segments; the split of
the empty string is `[""]`). -/
def splitNLGo : List Char → Line → List Line
  | [], acc => [acc.reverse]
  | c :: rest, acc =>
      if c = '\n' then acc.reverse :: splitNLGo rest []
      else splitNLGo rest (c :: acc)

/-- Python `s.split('\n')`. -/
def splitNL (s : List Char) : List Line := splitNLGo s []

/-- Python `s.splitlines()` restricted to the `'\n'`, `'\r\n'` and `'\r'`
line terminators (the splitter drops a final empty piece). -/
def pySplitlinesGo : List Char → Line → List Line
  | [], acc => if acc = [] then [] else [acc.reverse]
  | '\r' :: '\n' :: rest, acc => acc.reverse :: pySplitlinesGo rest []
  | '\r' :: rest, acc => acc.reverse :: pySplitlinesGo rest []
  | '\n' :: rest, acc => acc.reverse :: pySplitlinesGo rest []
  | c :: rest, acc => pySplitlinesGo rest (c :: acc)

/-- Python `s.splitlines()`. -/
def pySplitlines (s : List Char) : List Line := pySplitlinesGo s []

/-- Python `s.expandtabs()` with the default tab size 8; the column
counter resets at `'\n'` and `'\r'`. -/
def pyExpandtabsGo : List Char → Nat → List Char
  | [], _ => []
  | c :: rest, col =>
      if c = '\t' then
        List.replicate (8 - col % 8) ' ' ++ pyExpandtabsGo rest (col + (8 - col % 8))
      else if c = '\n' then '\n' :: pyExpandtabsGo rest 0
      else if c = '\r' then '\r' :: pyExpandtabsGo rest 0
      else c :: pyExpandtabsGo rest (col + 1)

/-- Python `s.expandtabs()`. -/
def pyExpandtabs (s : List Char) : List Char := pyExpandtabsGo s 0

/-- `'\n'.join(xs)`. -/
def joinNL : List Line → Line
  | [] => []
  | [x] => x
  | x :: y :: r => x ++ '\n' :: joinNL (y :: r)

/-- `min_indentation(s)`: the minimum indentation of any non-blank line,
`0` when there is none (`parser.py`, lines 700-706). -/
def min_indentation (s : List Char) : Nat :=
  let indents := (splitNL s).filterMap lineIndentOpt
  match indents.min? with
  | some m => m
  | none => 0

/-- Python `lst[a:b]` for non-negative bounds. -/
def pySlice (l : List α) (a b : Nat) : List α := (l.take b).drop a

/-- Python `lst[a:b]` where `b` may be `None` (`lst[a:]`). -/
def pySliceO (l : List α) (a : Nat) : Option Nat → List α
  | none => l.drop a
  | some b => pySlice l a b

/-- Insertion of a number into a sorted list (helper for `sortNat`). -/
def insNat (a : Nat) : List Nat → List Nat
  | [] => [a]
  | b :: r => if a ≤ b then a :: b :: r else b :: insNat a r

/-- Insertion sort on naturals, used to model Python `sorted(...)` of a
set of line numbers. -/
def sortNat : List Nat → List Nat
  | [] => []
  | a :: r => insNat a (sortNat r)

/-- An opaque directive token.  The parser only stores directives and
tests their presence, so the payload is irrelevant; `directive.extract`
is an external collaborator. -/
structure Directive where
  tag : Nat
deriving DecidableEq

/-- One top-level statement node of the host AST, as used by
`_locate_ps1_linenos`: its (1-based) line number and whether it is a bare
expression statement (`ast.Expr`). -/
structure AstNode where
  lineno : Nat
  isExpr : Bool
deriving DecidableEq

/-- The external collaborators of the parser (spec §6.1): the balance
oracle `static.is_balanced_statement`, the host AST parser `ast.parse`
(`.error` models a raised syntax error), and `directive.extract` applied
to a source fragment. -/
structure Collab where
  is_balanced : List Line → Bool
  astParse : Line → Except Unit (List AstNode)
  extr : Line → List Directive

/-- `DoctestPart`: the product type the parser emits (`parser.py`,
lines 58-70).  `want_lines` and `orig_lines` default to `None`;
`use_eval` is initialised to `False`. -/
structure DoctestPart where
  exec_lines : List Line
  want_lines : Option (List Line) := none
  line_offset : Nat := 0
  orig_lines : Option (List Line) := none
  use_eval : Bool := false
  directives : Option (List Directive) := none
deriving DecidableEq

/-- Python truthiness of the `want_lines` attribute (`if self.want_lines:`):
false for `None` and for the empty list. -/
def DoctestPart.wantTruthy (p : DoctestPart) : Bool :=
  match p.want_lines with
  | some (_ :: _) => true
  | _ => false

/-- `DoctestPart.n_exec_lines`. -/
def DoctestPart.n_exec_lines (p : DoctestPart) : Nat := p.exec_lines.length

/-- `DoctestPart.n_want_lines` (`parser.py`, lines 80-85). -/
def DoctestPart.n_want_lines (p : DoctestPart) : Nat :=
  if p.wantTruthy then (p.want_lines.getD []).length else 0

/-- `DoctestPart.n_lines`. -/
def DoctestPart.n_lines (p : DoctestPart) : Nat := p.n_exec_lines + p.n_want_lines

/-- `DoctestPart.source`: `'\n'.join(exec_lines)`. -/
def DoctestPart.source (p : DoctestPart) : Line :=
  joinNL p.exec_lines

/-- `DoctestPart.want` (`parser.py`, lines 106-118): the joined want
lines, or `None` when `want_lines` is falsy. -/
def DoctestPart.want (p : DoctestPart) : Option Line :=
  if p.wantTruthy then some (joinNL (p.want_lines.getD [])) else none

/-- `int(math.ceil(math.log(n, 10)))` for `n ≥ 1`, idealised to exact
arithmetic: the least `d` with `n ≤ 10 ^ d` (the code computes it in
floating point; the model is exact). -/
def ceilLog10 (n : Nat) : Nat :=
  ((List.range (n + 1)).find? (fun d => n ≤ 10 ^ d)).getD 0

/-- Decimal digits of a natural number. -/
def natDigits (n : Nat) : Line := (Nat.repr n).toList

/-- `'{:Nd}'.format(n)`: decimal digits right-aligned in width `w`,
padded with spaces. -/
def spacePadNum (w : Nat) (n : Nat) : Line :=
  let ds := natDigits n
  List.replicate (w - ds.length) ' ' ++ ds

/-- Modelled from the spec: `utils.indent(text, '>>> ')`
(`xdoctest.utils` is not under `src/`); per §6.2 of the spec, each
source line is prefixed with `">>> "`.  Every `'\n'`-separated segment
of the text receives the prefix. -/
def utilsIndent (text : Line) : Line :=
  joinNL ((splitNL text).map (fun l => str ">>> " ++ l))

/-- The `new_lines` list built by `DoctestPart.format_src` in its
`linenos` branch (`parser.py`, lines 207-218): each line of the
`">>> "`-indented source text is prefixed by
`'{{:{}d}} {{}}'.format(n_digits)` (a space-padded right-aligned line
number starting at `startline + line_offset`), and each want line by
`n_digits` spaces and a space. -/
def format_src_new_lines (p : DoctestPart) (want : Bool) (startline : Nat)
    (n_digits : Nat) : List Line :=
  let src_text := utilsIndent p.source
  let want_text : Line := match p.want with | some w => w | none => []
  let count := startline + p.line_offset
  let new_lines := (List.enumFrom count (pySplitlines src_text)).map
    (fun cl => spacePadNum n_digits cl.1 ++ [' '] ++ cl.2)
  let wlines := if want_text ≠ [] then
      (if want then (pySplitlines want_text).map
        (fun l => List.replicate n_digits ' ' ++ [' '] ++ l) else [])
    else []
  new_lines ++ wlines

/-- `DoctestPart.format_src` (`parser.py`, lines 179-229), without the
`colored` branch (the highlighter is an external collaborator).  When
`n_digits` is not given it is `ceil(log10(max(1, startline + n_lines)))`. -/
def format_src (p : DoctestPart) (linenos : Bool) (want : Bool)
    (startline : Nat) (n_digits? : Option Nat) : Line :=
  let src_text := utilsIndent p.source
  let want_text : Line := match p.want with | some w => w | none => []
  let n_digits := match n_digits? with
    | some d => d
    | none => ceilLog10 (max 1 (startline + p.n_lines))
  if linenos then
    joinNL (format_src_new_lines p want startline n_digits)
  else
    if want_text ≠ [] then
      (if want then src_text ++ str "\n" ++ want_text else src_text)
    else
      src_text

/-- The rendering described verbatim by claim C6: a ZERO-padded line
number of width `ceil(log10(startline + n_lines))` before each source
line (first number `startline + line_offset`, incrementing by one), and
an equal width of spaces before each want line. -/
def format_src_claimC6 (p : DoctestPart) (startline : Nat) : List Line :=
  let w := ceilLog10 (startline + p.n_lines)
  ((List.range p.exec_lines.length).map (fun i =>
      (List.replicate (w - (natDigits (startline + p.line_offset + i)).length) '0'
        ++ natDigits (startline + p.line_offset + i))
      ++ [' '] ++ str ">>> " ++ p.exec_lines.getD i [])) ++
  ((if p.wantTruthy then p.want_lines.getD [] else []).map
      (fun l => List.replicate w ' ' ++ [' '] ++ l))

/-- The rendering of the amended claim C6: as `format_src_claimC6` but
with the line numbers SPACE-padded (right-aligned) in the same width. -/
def format_src_amendedC6 (p : DoctestPart) (startline : Nat) : List Line :=
  let w := ceilLog10 (startline + p.n_lines)
  ((List.range p.exec_lines.length).map (fun i =>
      spacePadNum w (startline + p.line_offset + i)
      ++ [' '] ++ str ">>> " ++ p.exec_lines.getD i [])) ++
  ((if p.wantTruthy then p.want_lines.getD [] else []).map
      (fun l => List.replicate w ' ' ++ [' '] ++ l))

/-- A ten-line part used to exhibit the padding of `format_src`. -/
def padDemoPart : DoctestPart :=
  { exec_lines := [str "x0", str "x1", str "x2", str "x3", str "x4",
                   str "x5", str "x6", str "x7", str "x8", str "x9"] }

/-! ### The packager: `_locate_ps1_linenos`, `_workaround_16806`,
`_package_chunk` -/

/-- The error kinds raised inside the parsing pipeline; `parse` wraps
each of them in a `DoctestParseError`. -/
inductive PErr
  /-- `SyntaxError('ill-formed doctest')`: the line iterator was
  exhausted before the balance oracle reported a complete statement. -/
  | illFormed
  /-- `SyntaxError('Bad indentation in doctest on line ...')`: a line
  pulled mid-statement has a prefix other than `">>> "`, `"... "` or
  blank after the `state_indent` columns. -/
  | badIndentation (line_idx : Nat) (line : Line)
  /-- The `assert` statements of `_complete_source` and
  `_group_labeled_lines` (an `AssertionError` would be wrapped by
  `parse` like any other exception). -/
  | assertionFailed
  /-- `ast.parse` raised on the substituted source. -/
  | astSyntaxError
  /-- An `IndexError`: `statement_nodes[-1]`, `ps1_linenos[-1]` or
  `raw_source_lines[0]` applied to an empty list. -/
  | indexError
  /-- Model artifact: recursion fuel exhausted.  The fuel supplied by
  `parse` is proved sufficient, so this never escapes. -/
  | outOfFuel
deriving DecidableEq

/-- The inner `while not is_balanced_statement(exec_source_lines[a:b]):
a -= 1` loop of `_workaround_16806`: the balance of `lines[a:b]` is
checked at the current `a` and `a` is decremented while it fails.  When
`a` reaches `0` the model stops at `0` (Python would continue into
negative indices; the collaborator contract never triggers this). -/
def shiftA (bal : List Line → Bool) (lines : List Line) (b : Nat) : Nat → Nat
  | 0 => 0
  | a + 1 => if bal (pySlice lines (a + 1) b) then a + 1 else shiftA bal lines b a

/-- The reverse walk of `_workaround_16806`: fold over the reversed
candidate list, carrying the right end `b`; each corrected index becomes
the next `b`. -/
def workaroundGo (bal : List Line → Bool) (lines : List Line) :
    Nat → List Nat → List Nat
  | _, [] => []
  | b, a :: rest =>
      let a' := shiftA bal lines b a
      a' :: workaroundGo bal lines a' rest

/-- `_workaround_16806` (`parser.py`, lines 520-548): correct the
candidate statement-start indices for the multi-line-string lineno bug,
starting from the end of the line list.  (Python returns the corrected
indices as a set; the model returns the list, deduplicated later.) -/
def workaround_16806 (bal : List Line → Bool) (ps1_linenos : List Nat)
    (exec_source_lines : List Line) : List Nat :=
  workaroundGo bal exec_source_lines exec_source_lines.length ps1_linenos.reverse

/-- The comment hack of `_locate_ps1_linenos` (line 492): a line that
starts with `'#'` is replaced by the sentinel statement `'_._  = None'`
in the working copy handed to the AST parser and the balance oracle. -/
def hackLine (p : Line) : Line :=
  if (str "#").isPrefixOf p then str "_._  = None" else p

/-- The hacked executable lines of a source block. -/
def execHacked (source_lines : List Line) : List Line :=
  (source_lines.map (fun p => p.drop 4)).map hackLine

/-- The PS2 index set of `_locate_ps1_linenos` (lines 504-506): indices
whose source line does not carry the `">>> "` prefix. -/
def ps2Of (source_lines : List Line) : List Nat :=
  (List.range source_lines.length).filter
    (fun x => decide ((source_lines.getD x []).take 4 ≠ str ">>> "))

/-- `_locate_ps1_linenos` (`parser.py`, lines 463-518): strip prompts,
apply the comment hack, parse the joined block, correct the candidate
line numbers with `_workaround_16806`, remove explicit PS2 lines, and
report whether the final statement node is a bare expression.
`.error .astSyntaxError` models `ast.parse` raising;
`.error .indexError` models `statement_nodes[-1]` on an empty body. -/
def locate_ps1_linenos (C : Collab) (source_lines : List Line) :
    Except PErr (List Nat × Bool) :=
  let exec_source_lines := execHacked source_lines
  let source_block := joinNL exec_source_lines
  match C.astParse source_block with
  | .error _ => .error .astSyntaxError
  | .ok statement_nodes =>
      let ps1_cand := statement_nodes.map (fun node => node.lineno - 1)
      let corrected := workaround_16806 C.is_balanced ps1_cand exec_source_lines
      let ps2_linenos := ps2Of source_lines
      let ps1 := sortNat ((corrected.dedup).filter (fun a => decide (a ∉ ps2_linenos)))
      match statement_nodes.getLast? with
      | none => .error .indexError
      | some lastNode => .ok (ps1, lastNode.isExpr)

/-- The corrected index as described by the spec (§4.4): "for each
candidate `a`, while the balance oracle says `exec_lines[a:b]` is not
balanced, decrement `a`" — i.e. the largest `a' ≤ a` whose slice up to
`b` is balanced (`0` when there is none, where the loop would bottom
out). -/
def spec_corrected (bal : List Line → Bool) (lines : List Line) (b a : Nat) : Nat :=
  (((List.range (a + 1)).reverse).find? (fun x => bal (pySlice lines x b))).getD 0

/-- The reverse walk as described by the spec (§4.4): "walk the candidate
indices in reverse, maintaining a right end `b` initialized to the total
number of exec lines [...] Record the corrected `a`, set `b := a`,
continue." -/
def spec_walk (bal : List Line → Bool) (lines : List Line) :
    Nat → List Nat → List Nat
  | _, [] => []
  | b, a :: rest =>
      let a' := spec_corrected bal lines b a
      a' :: spec_walk bal lines a' rest

/-- The PS1 set as described by claim C4: the corrected set produced by
the spec walk, minus every index whose original source line lacks the
`">>> "` prefix, sorted. -/
def spec_ps1_set (bal : List Line → Bool) (source_lines : List Line)
    (cand : List Nat) : List Nat :=
  let lines := execHacked source_lines
  sortNat (((spec_walk bal lines lines.length cand.reverse).dedup).filter
    (fun a => decide (a ∉ ps2Of source_lines)))

/-- One output item of `parse`: either an intervening text run (yielded
as a joined string) or a `DoctestPart`. -/
inductive PItem
  | text (s : Line)
  | part (p : DoctestPart)
deriving DecidableEq

/-- Python `zip(xs, xs[1:] + [None])`. -/
def zipNext : List Nat → List (Nat × Option Nat)
  | [] => []
  | [a] => [(a, none)]
  | a :: b :: r => (a, some b) :: zipNext (b :: r)

/-- `line_to_directives.get(s1, None)`. -/
def lookupDir (m : List (Nat × List Directive)) (s1 : Nat) : Option (List Directive) :=
  (m.find? (fun kv => kv.1 == s1)).map Prod.snd

/-- The second directive pass of `_package_chunk` (lines 385-393): for
each adjacent pair of PS1 indices whose first element is not already a
break point, extract directives from the block; on success record the
break (and the following index, when there is one).  The membership test
observes breaks appended by earlier iterations, as in Python. -/
def breakPass2 (C : Collab) (exec_source_lines : List Line) :
    List (Nat × Option Nat) → List Nat → List (Nat × List Directive) →
    List Nat × List (Nat × List Directive)
  | [], bl, m => (bl, m)
  | (s1, s2?) :: rest, bl, m =>
      if s1 ∈ bl then breakPass2 C exec_source_lines rest bl m
      else
        let lines := pySliceO exec_source_lines s1 s2?
        let ds := C.extr (joinNL lines)
        if ds = [] then breakPass2 C exec_source_lines rest bl m
        else
          match s2? with
          | some s2 => breakPass2 C exec_source_lines rest (bl ++ [s1, s2]) (m ++ [(s1, ds)])
          | none => breakPass2 C exec_source_lines rest (bl ++ [s1]) (m ++ [(s1, ds)])

/-- `slice_example` of `_package_chunk` (lines 395-403): build a
`DoctestPart` from the slice `[s1:s2]`, with `use_eval` initialised to
`False` by the `DoctestPart` constructor. -/
def slice_example (exec_source_lines source_lines : List Line)
    (line_to_directives : List (Nat × List Directive)) (lineno : Nat)
    (s1 : Nat) (s2 : Option Nat) (want_lines : Option (List Line)) : DoctestPart :=
  { exec_lines := pySliceO exec_source_lines s1 s2
    want_lines := want_lines
    orig_lines := some (pySliceO source_lines s1 s2)
    line_offset := lineno + s1
    use_eval := false
    directives := lookupDir line_to_directives s1 }

/-- The first directive pass of `_package_chunk` (lines 377-383): the
PS1 indices whose own line carries directives, with those directives. -/
def bd1Of (C : Collab) (exec_source_lines : List Line) (ps1_linenos : List Nat) :
    List (Nat × List Directive) :=
  ps1_linenos.filterMap (fun s1 =>
    let ds := C.extr (exec_source_lines.getD s1 [])
    if ds = [] then none else some (s1, ds))

/-- Both directive passes of `_package_chunk` combined: the final
`break_linenos` list and `line_to_directives` mapping. -/
def breakStateOf (C : Collab) (exec_source_lines : List Line)
    (ps1_linenos : List Nat) : List Nat × List (Nat × List Directive) :=
  breakPass2 C exec_source_lines (zipNext ps1_linenos)
    ((bd1Of C exec_source_lines ps1_linenos).map Prod.fst)
    (bd1Of C exec_source_lines ps1_linenos)

/-- The leading emission loops of `_package_chunk` (lines 405-420): in
REPL mode one part per adjacent PS1 pair, otherwise one part per
adjacent break pair (when there are breaks); paired with the final value
of `s1` (Python initialises `s1 = s2 = 0`, so it remains `0` when the
loop body never runs). -/
def initOf (C : Collab) (simulate_repl : Bool)
    (exec_source_lines source_lines : List Line)
    (line_to_directives : List (Nat × List Directive))
    (break_linenos : List Nat) (ps1_linenos : List Nat) (lineno : Nat) :
    List DoctestPart × Nat :=
  if simulate_repl then
    let prs := ps1_linenos.zip ps1_linenos.tail
    (prs.map (fun ab => slice_example exec_source_lines source_lines
      line_to_directives lineno ab.1 (some ab.2) none),
     match prs.getLast? with | some ab => ab.2 | none => 0)
  else if break_linenos ≠ [] then
    let bl := sortNat ((0 :: break_linenos).dedup)
    let prs := bl.zip bl.tail
    (prs.map (fun ab => slice_example exec_source_lines source_lines
      line_to_directives lineno ab.1 (some ab.2) none),
     match prs.getLast? with | some ab => ab.2 | none => 0)
  else ([], 0)

/-- The eval-isolation step of `_package_chunk` (lines 421-430): when
the chunk has a want and `eval_final` holds (and not in REPL mode), the
final statement starting at `ps1_linenos[-1]` is split off; the
preceding content (when non-empty) becomes a part without a want.
`.error .indexError` models `ps1_linenos[-1]` on an empty list. -/
def stepOf (C : Collab) (simulate_repl : Bool)
    (exec_source_lines source_lines : List Line)
    (line_to_directives : List (Nat × List Directive))
    (want_lines : List Line) (eval_final : Bool) (ps1_linenos : List Nat)
    (lineno : Nat) (init : List DoctestPart × Nat) :
    Except PErr (List DoctestPart × Nat) :=
  if simulate_repl then .ok init
  else if want_lines ≠ [] ∧ eval_final = true then
    match ps1_linenos.getLast? with
    | none => .error .indexError
    | some s2 =>
        if s2 ≠ init.2 then
          .ok (init.1 ++ [slice_example exec_source_lines source_lines
            line_to_directives lineno init.2 (some s2) none], s2)
        else .ok init
  else .ok init

/-- The emission phase of `_package_chunk` given the located PS1 indices
and `eval_final`: directive passes, leading loops, eval isolation, and
the final part carrying the want with
`use_eval = bool(want_lines) and eval_final` (lines 372-435). -/
def chunkParts (C : Collab) (simulate_repl : Bool)
    (exec_source_lines source_lines want_lines : List Line)
    (ps1_linenos : List Nat) (eval_final : Bool) (lineno : Nat) :
    Except PErr (List DoctestPart) :=
  let st := breakStateOf C exec_source_lines ps1_linenos
  match stepOf C simulate_repl exec_source_lines source_lines st.2 want_lines
      eval_final ps1_linenos lineno
      (initOf C simulate_repl exec_source_lines source_lines st.2 st.1
        ps1_linenos lineno) with
  | .error e => .error e
  | .ok pf =>
      let fin := slice_example exec_source_lines source_lines st.2 lineno
        pf.2 none (some want_lines)
      .ok (pf.1 ++ [{ fin with use_eval := decide (want_lines ≠ []) && eval_final }])

/-- `_package_chunk` (`parser.py`, lines 343-435).  `.error .indexError`
at the head models `raw_source_lines[0]` on an empty group; the other
error cases come from `locate_ps1_linenos` and from `ps1_linenos[-1]`
in the eval-isolation step. -/
def package_chunk (C : Collab) (simulate_repl : Bool)
    (raw_source_lines raw_want_lines : List Line) (lineno : Nat) :
    Except PErr (List DoctestPart) :=
  match raw_source_lines with
  | [] => .error .indexError
  | first :: _ =>
      let line_indent := pyLineIndent first
      let source_lines := raw_source_lines.map (fun p => p.drop line_indent)
      let want_lines := raw_want_lines.map (fun p => p.drop line_indent)
      let exec_source_lines := source_lines.map (fun p => p.drop 4)
      match locate_ps1_linenos C source_lines with
      | .error e => .error e
      | .ok (ps1_linenos, eval_final) =>
          chunkParts C simulate_repl exec_source_lines source_lines want_lines
            ps1_linenos eval_final lineno

/-! ### The labeler: `_label_docsrc_lines` and `_complete_source` -/

/-- The line states of the labeler. -/
inductive Label
  | TEXT
  | DSRC
  | WANT
deriving DecidableEq

/-- The state-transition block of `_label_docsrc_lines` (lines 629-661):
given the previous state, the active `state_indent` and the raw line,
compute the current state. -/
def nextState (prev : Label) (state_indent : Nat) (line : Line) : Label :=
  let line_indent := pyLineIndent line
  let norm_line := line.drop state_indent
  let strip_line := pyStrip line
  match prev with
  | .TEXT =>
      if (str ">>> ").isPrefixOf strip_line then .DSRC else .TEXT
  | .WANT =>
      if strip_line = [] then .TEXT
      else if (str ">>> ").isPrefixOf strip_line then .DSRC
      else if line_indent < state_indent then .TEXT
      else .WANT
  | .DSRC =>
      if strip_line = [] ∨ line_indent < state_indent then .TEXT
      else if (str ">>> ").isPrefixOf norm_line ∨ (str "... ").isPrefixOf norm_line then
        (if strip_line = str "..." then .WANT else .DSRC)
      else .WANT

/-- The pull loop of `_complete_source` (lines 591-605): while the
accumulated `source_parts` are not balanced, pull the next line off the
shared iterator; the pulled line must be prefixed (after `state_indent`
columns) by `">>> "`, `"... "` or be blank.  Returns the pulled lines
and the remaining iterator. -/
def completeSourceAux (bal : List Line → Bool) (state_indent : Nat) :
    List Line → List (Nat × Line) → Except PErr (List Line × List (Nat × Line))
  | source_parts, rest =>
      if bal source_parts then .ok ([], rest)
      else
        match rest with
        | [] => .error .illFormed
        | (line_idx, next_line) :: rest' =>
            let norm_line := next_line.drop state_indent
            let pfx := norm_line.take 4
            let sfx := norm_line.drop 4
            if pyStrip pfx = str ">>>" ∨ pyStrip pfx = str "..." ∨ pyStrip pfx = [] then
              match completeSourceAux bal state_indent (source_parts ++ [sfx]) rest' with
              | .ok pr => .ok (next_line :: pr.1, pr.2)
              | .error e => .error e
            else .error (.badIndentation line_idx next_line)

/-- `_complete_source` (`parser.py`, lines 579-605): assert the prompt of
the entry line, emit it, then pull lines until the statement balances. -/
def complete_source (bal : List Line → Bool) (state_indent : Nat) (line : Line)
    (rest : List (Nat × Line)) : Except PErr (List Line × List (Nat × Line)) :=
  let norm_line := line.drop state_indent
  let pfx := norm_line.take 4
  let sfx := norm_line.drop 4
  if pyStrip pfx = str ">>>" ∨ pyStrip pfx = str "..." then
    match completeSourceAux bal state_indent [sfx] rest with
    | .ok pr => .ok (line :: pr.1, pr.2)
    | .error e => .error e
  else .error .assertionFailed

/-- The main loop of `_label_docsrc_lines` (lines 620-695), with
recursion fuel (the loop and `_complete_source` share one line
iterator, so the recursion is not structural; `label_docsrc_lines`
supplies sufficient fuel, proved below). -/
def labelLoop (bal : List Line → Bool) :
    Nat → Label → Nat → List (Nat × Line) → Except PErr (List (Label × Line))
  | 0, _, _, _ => .error .outOfFuel
  | _ + 1, _, _, [] => .ok []
  | fuel + 1, prev, state_indent, (_, line) :: rest =>
      let line_indent := pyLineIndent line
      let curr := nextState prev state_indent line
      let si' := if curr ≠ prev then
          (if curr = .TEXT then 0 else if curr = .DSRC then line_indent else state_indent)
        else state_indent
      match curr with
      | .DSRC =>
          match complete_source bal si' line rest with
          | .error e => .error e
          | .ok pr =>
              match labelLoop bal fuel .DSRC si' pr.2 with
              | .error e => .error e
              | .ok out => .ok (pr.1.map (fun l => (Label.DSRC, l)) ++ out)
      | .WANT =>
          match labelLoop bal fuel .WANT si' rest with
          | .error e => .error e
          | .ok out => .ok ((Label.WANT, line) :: out)
      | .TEXT =>
          match labelLoop bal fuel .TEXT si' rest with
          | .error e => .error e
          | .ok out => .ok ((Label.TEXT, line) :: out)

/-- `_label_docsrc_lines` (`parser.py`, lines 550-697) applied to the
enumerated lines of the prepared docstring. -/
def label_docsrc_lines (bal : List Line → Bool) (lines : List Line) :
    Except PErr (List (Label × Line)) :=
  labelLoop bal (lines.length + 1) .TEXT 0 lines.enum

/-! ### The grouper: `_group_labeled_lines` -/

/-- `itertools.groupby` over the labels: maximal runs of equally
labeled lines. -/
def pyGroupBy : List (Label × Line) → List (Label × List Line)
  | [] => []
  | (k, l) :: rest =>
      match pyGroupBy rest with
      | [] => [(k, [l])]
      | (k', ls) :: gs =>
          if k = k' then (k, l :: ls) :: gs else (k, [l]) :: (k', ls) :: gs

/-- A group produced by `_group_labeled_lines`: either a text run or a
`(source, want)` pair (Python encodes an absent want as the empty
string, which iterates like the empty list in `_package_chunk`). -/
inductive GChunk
  | textC (block : List Line)
  | srcC (source want : List Line)
deriving DecidableEq

/-- `_group_labeled_lines` (`parser.py`, lines 437-461): fold over the
label runs carrying `prev_source`.  A want run with no pending source is
the `assert prev_source is not None` failure; a trailing source block is
flushed when truthy (`if prev_source:`), while the flush before a text
run tests `is not None`. -/
def group_labeled_lines :
    Option (List Line) → List (Label × List Line) → Except PErr (List GChunk)
  | prev, [] =>
      .ok (match prev with
        | some s => if s ≠ [] then [GChunk.srcC s []] else []
        | none => [])
  | prev, (.TEXT, block) :: rest =>
      match group_labeled_lines none rest with
      | .error e => .error e
      | .ok more =>
          .ok ((match prev with | some s => [GChunk.srcC s []] | none => []) ++
            (GChunk.textC block :: more))
  | prev, (.WANT, block) :: rest =>
      match prev with
      | none => .error .assertionFailed
      | some s =>
          match group_labeled_lines none rest with
          | .error e => .error e
          | .ok more => .ok (GChunk.srcC s block :: more)
  | _, (.DSRC, block) :: rest => group_labeled_lines (some block) rest

/-! ### `_package_groups` and `parse` -/

/-- `_package_groups` (`parser.py`, lines 330-341): package each group,
advancing the line counter by the number of consumed lines; text runs
are yielded joined. -/
def package_groups (C : Collab) (repl : Bool) :
    List GChunk → Nat → Except PErr (List PItem)
  | [], _ => .ok []
  | .srcC s w :: rest, lineno =>
      match package_chunk C repl s w lineno with
      | .error e => .error e
      | .ok ps =>
          match package_groups C repl rest (lineno + s.length + w.length) with
          | .error e => .error e
          | .ok more => .ok (ps.map PItem.part ++ more)
  | .textC b :: rest, lineno =>
      match package_groups C repl rest (lineno + b.length) with
      | .error e => .error e
      | .ok more => .ok (PItem.text (joinNL b) :: more)

/-- The input preparation of `parse` (lines 310-314): expand tabs,
compute the minimum indentation, and strip it from every line. -/
def prepLines (s : List Char) : List Line :=
  let t := pyExpandtabs s
  let mi := min_indentation t
  (pySplitlines t).map (fun l => l.drop mi)

/-- The `try` body of `parse` (lines 316-320): label, group, package. -/
def parseLines (C : Collab) (repl : Bool) (lines : List Line) :
    Except PErr (List PItem) :=
  match label_docsrc_lines C.is_balanced lines with
  | .error e => .error e
  | .ok labeled =>
      match group_labeled_lines none (pyGroupBy labeled) with
      | .error e => .error e
      | .ok grouped => package_groups C repl grouped 0

/-- The errors `parse` surfaces: a plain `TypeError` for non-string
input (before any parsing work), and `DoctestParseError` wrapping the
input string, the caller `info` and the original cause (lines 304-328). -/
inductive PyError
  | typeError
  | doctestParseError (string : List Char) (info : Option Nat) (orig : PErr)
deriving DecidableEq

/-- `DoctestParser.parse` on a string (`parser.py`, lines 254-328):
prepare the input, run the pipeline, and wrap any pipeline error in a
`DoctestParseError` carrying the string and the caller info. -/
def parse (C : Collab) (repl : Bool) (string : List Char) (info : Option Nat) :
    Except PyError (List PItem) :=
  match parseLines C repl (prepLines string) with
  | .ok items => .ok items
  | .error e => .error (.doctestParseError string info e)

/-- A dynamically typed argument for `parse`: a string, or any
non-string value. -/
inductive PyVal
  | str (s : List Char)
  | notStr
deriving DecidableEq

/-- `parse` including the `isinstance` check (lines 307-308): a
non-string argument raises a plain `TypeError` before any parsing. -/
def parsePy (C : Collab) (repl : Bool) : PyVal → Option Nat → Except PyError (List PItem)
  | .notStr, _ => .error .typeError
  | .str s, info => parse C repl s info

/-! ### Concrete collaborators used by witnesses and counterexamples -/

/-- Collaborators for the blank-pull scenario `>>> x = [1,` / blank /
`>>> 2]`: only the full three-line statement is balanced; the AST has
one assignment at line 1. -/
def c2Collab : Collab :=
  { is_balanced := fun ls => ls == [str "x = [1,", str "", str "2]"]
    astParse := fun _ => .ok [⟨1, false⟩]
    extr := fun _ => [] }

/-- The single part `parse` emits for the blank-pull scenario. -/
def c2DemoPart : DoctestPart :=
  { exec_lines := [str "x = [1,", str "", str "2]"]
    want_lines := some []
    line_offset := 0
    orig_lines := some [str ">>> x = [1,", str "", str ">>> 2]"]
    use_eval := false
    directives := none }

/-- Collaborators for the comment-only scenario `>>>  # hi` (two spaces
after the prompt): the line `" # hi"` is a complete sequence of zero
statements, and the AST of a comment-only source has no nodes. -/
def c7Collab : Collab :=
  { is_balanced := fun ls => ls == [str " # hi"]
    astParse := fun _ => .ok []
    extr := fun _ => [] }

/-- Collaborators for the want-less assignment `>>> x = 1`. -/
def c8Collab : Collab :=
  { is_balanced := fun ls => ls == [str "x = 1"]
    astParse := fun _ => .ok [⟨1, false⟩]
    extr := fun _ => [] }

/-- The part `parse` emits for the want-less docstring `>>> x = 1`. -/
def c8DemoPart : DoctestPart :=
  { exec_lines := [str "x = 1"]
    want_lines := some []
    line_offset := 0
    orig_lines := some [str ">>> x = 1"]
    use_eval := false
    directives := none }

/-- Collaborators for the C4 witness: the two-line multi-line-string
scenario `>>> '''` / `... x'''`, where the AST reports the string
statement at line 2 (the upstream bug) and only the full two-line slice
is balanced. -/
def c4Collab : Collab :=
  { is_balanced := fun ls => ls == [str "'''", str "x'''"]
    astParse := fun _ => .ok [⟨2, true⟩]
    extr := fun _ => [] }

/-- Collaborators for the C1 witness: a single bare expression
`>>> 2 + 2` whose AST node is an `Expr` at line 1. -/
def c1Collab : Collab :=
  { is_balanced := fun _ => true
    astParse := fun _ => .ok [⟨1, true⟩]
    extr := fun _ => [] }

/-- The part `_package_chunk` emits for `>>> 2 + 2` with want `4`. -/
def c1DemoPart : DoctestPart :=
  { exec_lines := [str "2 + 2"]
    want_lines := some [str "4"]
    line_offset := 0
    orig_lines := some [str ">>> 2 + 2"]
    use_eval := true
    directives := none }

/-- Collaborators for the C3 witness: two statements `x = 1` and the
bare expression `x + 1`; the AST reports them at lines 1 and 2; each
single-line slice is balanced. -/
def c3Collab : Collab :=
  { is_balanced := fun ls => ls == [str "x + 1"] || ls == [str "x = 1"]
    astParse := fun _ => .ok [⟨1, false⟩, ⟨2, true⟩]
    extr := fun _ => [] }

def goodSrc4 (si : Nat) (l : Line) : Prop :=
  pyStrip ((l.drop si).take 4) = str ">>>" ∨
  pyStrip ((l.drop si).take 4) = str "..." ∨
  pyStrip ((l.drop si).take 4) = []

/-- Structure of a labeled-line suffix produced by the labeler main loop
when entered with previous state `p` and state indent `si`: a want line
only continues a source or want run; a source line either starts a fresh
run (whose indent is its own `pyLineIndent`) or continues the current
run at the current indent; either way it satisfies `goodSrc4` for the
run's indent. -/
inductive Wf : Label → Nat → List (Label × Line) → Prop
  | nil (p : Label) (si : Nat) : Wf p si []
  | text (p : Label) (si si' : Nat) (l : Line) (out : List (Label × Line)) :
      Wf .TEXT si' out → Wf p si ((.TEXT, l) :: out)
  | want (p : Label) (si si' : Nat) (l : Line) (out : List (Label × Line)) :
      (p = .DSRC ∨ p = .WANT) → Wf .WANT si' out → Wf p si ((.WANT, l) :: out)
  | srcNew (p : Label) (si : Nat) (l : Line) (out : List (Label × Line)) :
      p ≠ .DSRC → goodSrc4 (pyLineIndent l) l → Wf .DSRC (pyLineIndent l) out →
      Wf p si ((.DSRC, l) :: out)
  | srcCont (si : Nat) (l : Line) (out : List (Label × Line)) :
      goodSrc4 si l → Wf .DSRC si out → Wf .DSRC si ((.DSRC, l) :: out)

/-- A good source block: every line satisfies the prefix condition at
the indent of the block's first line. -/
def goodBlock (b : List Line) : Prop :=
  ∀ l ∈ b, goodSrc4 (pyLineIndent b.headI) l

/-- Validity of a label-run list for the grouper, given the label of the
previous run (the labeler state on entry): runs are nonempty, a want run
directly follows a source run, and source runs are good blocks. -/
def Ggs : Label → List (Label × List Line) → Prop
  | _, [] => True
  | _, (.TEXT, b) :: gs => b ≠ [] ∧ Ggs .TEXT gs
  | p, (.WANT, b) :: gs => b ≠ [] ∧ p = .DSRC ∧ Ggs .WANT gs
  | _, (.DSRC, b) :: gs => b ≠ [] ∧ goodBlock b ∧ Ggs .DSRC gs

/-- Validity of a label-run list continuing a run already in progress:
when the head run carries the entry label and that label is `DSRC` (or
`WANT`), the head is the tail of the current run — its source lines are
good at the current state indent rather than at their own head's. -/
def GgsCont (p : Label) (si : Nat) : List (Label × List Line) → Prop
  | [] => True
  | (k, ls) :: gs =>
      if k = p ∧ p = .DSRC then (∀ l ∈ ls, goodSrc4 si l) ∧ Ggs .DSRC gs
      else if k = p ∧ p = .WANT then Ggs .WANT gs
      else Ggs p ((k, ls) :: gs)

/-- The (amended) C2 property of one emitted part: the original lines
are recorded, the exec lines are the original lines with their first
four characters removed, and every original line's first four characters
strip to `">>>"`, `"..."` or the empty string. -/
def partPrefixOk (p : DoctestPart) : Prop :=
  ∃ o, p.orig_lines = some o ∧
    p.exec_lines = o.map (fun l => l.drop 4) ∧
    ∀ l ∈ o, pyStrip (l.take 4) = str ">>>" ∨ pyStrip (l.take 4) = str "..." ∨
      pyStrip (l.take 4) = []

/-- Claim C10: a Part with an empty `want_lines` sequence is
indistinguishable, through the public accessors, from one with
`want_lines` absent: whenever `want_lines` is empty or absent, the `want`
accessor returns `none` and `n_want_lines` returns `0`. -/
theorem C10_want_accessor_collapse (p : DoctestPart)
    (h : p.want_lines = none ∨ p.want_lines = some []) :
    p.want = none ∧ p.n_want_lines = 0 := by
  have ht : p.wantTruthy = false := by
    unfold DoctestPart.wantTruthy
    rcases h with h | h <;> rw [h]
  constructor
  · unfold DoctestPart.want
    rw [ht]
    simp
  · unfold DoctestPart.n_want_lines
    rw [ht]
    simp

/-- Witness for C10 at a concrete part with `want_lines = some []`. -/
theorem C10_want_accessor_collapse_witness :
    (DoctestPart.mk [str "print(123)"] (some []) 0 none false none).want = none ∧
    (DoctestPart.mk [str "print(123)"] (some []) 0 none false none).n_want_lines = 0 :=
  C10_want_accessor_collapse _ (Or.inr rfl)

/-! ### Splitting and joining lines -/

theorem splitNLGo_no_nl (l : List Char) (acc : Line) (h : ('\n' : Char) ∉ l) :
    splitNLGo l acc = [acc.reverse ++ l] := by
  induction l generalizing acc with
  | nil => simp [splitNLGo]
  | cons c rest ih =>
      have hc : c ≠ '\n' := fun hc => h (hc ▸ List.mem_cons_self c rest)
      have hr : ('\n' : Char) ∉ rest := fun hr => h (List.mem_cons_of_mem c hr)
      simp [splitNLGo, hc, ih (c :: acc) hr]

theorem splitNLGo_break (x : Line) (t : List Char) (acc : Line)
    (h : ('\n' : Char) ∉ x) :
    splitNLGo (x ++ '\n' :: t) acc = (acc.reverse ++ x) :: splitNLGo t [] := by
  induction x generalizing acc with
  | nil => simp [splitNLGo]
  | cons c rest ih =>
      have hc : c ≠ '\n' := fun hc => h (hc ▸ List.mem_cons_self c rest)
      have hr : ('\n' : Char) ∉ rest := fun hr => h (List.mem_cons_of_mem c hr)
      simp [splitNLGo, hc, ih (c :: acc) hr]

theorem splitNL_joinNL (xs : List Line) (h0 : xs ≠ [])
    (h : ∀ l ∈ xs, ('\n' : Char) ∉ l) :
    splitNL (joinNL xs) = xs := by
  induction xs with
  | nil => exact absurd rfl h0
  | cons x r ih =>
      match r with
      | [] =>
          have hx := h x (List.mem_cons_self x [])
          simp [joinNL, splitNL, splitNLGo_no_nl x [] hx]
      | y :: r' =>
          have hx := h x (List.mem_cons_self x _)
          have hr : ∀ l ∈ y :: r', ('\n' : Char) ∉ l :=
            fun l hl => h l (List.mem_cons_of_mem x hl)
          have := ih (by simp) hr
          simp only [joinNL, splitNL] at *
          rw [splitNLGo_break x _ [] hx]
          simp [this]

theorem pySplitlinesGo_nl (rest : List Char) (acc : Line) :
    pySplitlinesGo ('\n' :: rest) acc = acc.reverse :: pySplitlinesGo rest [] := rfl

theorem pySplitlinesGo_cons_ne (c : Char) (rest : List Char) (acc : Line)
    (h1 : c ≠ '\r') (h2 : c ≠ '\n') :
    pySplitlinesGo (c :: rest) acc = pySplitlinesGo rest (c :: acc) := by
  rw [pySplitlinesGo.eq_def]
  split
  all_goals simp_all

theorem pySplitlinesGo_no (l : List Char) (acc : Line)
    (h1 : ('\n' : Char) ∉ l) (h2 : ('\r' : Char) ∉ l) :
    pySplitlinesGo l acc = if acc = [] ∧ l = [] then [] else [acc.reverse ++ l] := by
  induction l generalizing acc with
  | nil =>
      match acc with
      | [] => simp [pySplitlinesGo]
      | a :: acc' => simp [pySplitlinesGo]
  | cons c rest ih =>
      have hcn : c ≠ '\n' := fun hc => h1 (hc ▸ List.mem_cons_self c rest)
      have hcr : c ≠ '\r' := fun hc => h2 (hc ▸ List.mem_cons_self c rest)
      have hn : ('\n' : Char) ∉ rest := fun hr => h1 (List.mem_cons_of_mem c hr)
      have hr : ('\r' : Char) ∉ rest := fun hr => h2 (List.mem_cons_of_mem c hr)
      rw [pySplitlinesGo_cons_ne c rest acc hcr hcn, ih (c :: acc) hn hr]
      simp

theorem pySplitlinesGo_break (x : Line) (t : List Char) (acc : Line)
    (h1 : ('\n' : Char) ∉ x) (h2 : ('\r' : Char) ∉ x) :
    pySplitlinesGo (x ++ '\n' :: t) acc = (acc.reverse ++ x) :: pySplitlinesGo t [] := by
  induction x generalizing acc with
  | nil => simp [pySplitlinesGo_nl]
  | cons c rest ih =>
      have hcn : c ≠ '\n' := fun hc => h1 (hc ▸ List.mem_cons_self c rest)
      have hcr : c ≠ '\r' := fun hc => h2 (hc ▸ List.mem_cons_self c rest)
      have hn : ('\n' : Char) ∉ rest := fun hr => h1 (List.mem_cons_of_mem c hr)
      have hr : ('\r' : Char) ∉ rest := fun hr => h2 (List.mem_cons_of_mem c hr)
      rw [List.cons_append, pySplitlinesGo_cons_ne c _ acc hcr hcn, ih (c :: acc) hn hr]
      simp

theorem pySplitlines_joinNL (xs : List Line)
    (h : ∀ l ∈ xs, ('\n' : Char) ∉ l ∧ ('\r' : Char) ∉ l)
    (hlast : xs.getLast? ≠ some []) :
    pySplitlines (joinNL xs) = xs := by
  induction xs with
  | nil => simp [joinNL, pySplitlines, pySplitlinesGo]
  | cons x r ih =>
      match r with
      | [] =>
          have hx := h x (List.mem_cons_self x [])
          have hxne : x ≠ [] := by
            intro hx0
            exact hlast (by simp [hx0])
          simp [joinNL, pySplitlines, pySplitlinesGo_no x [] hx.1 hx.2, hxne]
      | y :: r' =>
          have hx := h x (List.mem_cons_self x _)
          have hr : ∀ l ∈ y :: r', ('\n' : Char) ∉ l ∧ ('\r' : Char) ∉ l :=
            fun l hl => h l (List.mem_cons_of_mem x hl)
          have hlast' : (y :: r').getLast? ≠ some [] := by
            rw [List.getLast?_cons_cons] at hlast
            exact hlast
          have := ih hr hlast'
          simp only [joinNL, pySplitlines] at *
          rw [pySplitlinesGo_break x _ [] hx.1 hx.2]
          simp [this]

theorem getLast?_ne_nil_of_all_ne (ys : List Line) (h : ∀ l ∈ ys, l ≠ []) :
    ys.getLast? ≠ some [] := by
  induction ys with
  | nil => simp
  | cons x r ih =>
      match r with
      | [] =>
          intro hc
          simp at hc
          exact h x (List.mem_cons_self x []) hc
      | y :: r' =>
          rw [List.getLast?_cons_cons]
          exact ih (fun l hl => h l (List.mem_cons_of_mem x hl))

theorem numberedLines (nd : Nat) (xs : List Line) (c : Nat) :
    (List.enumFrom c xs).map (fun cl => spacePadNum nd cl.1 ++ [' '] ++ cl.2) =
      (List.range xs.length).map (fun i => spacePadNum nd (c + i) ++ [' '] ++ xs.getD i []) := by
  induction xs generalizing c with
  | nil => simp
  | cons x r ih =>
      simp only [List.enumFrom, List.map_cons, List.length_cons,
        List.range_succ_eq_map, List.map_map]
      rw [ih (c + 1), List.cons_eq_cons]
      constructor
      · simp
      · apply List.map_congr_left
        intro i _
        simp only [Function.comp_apply, Nat.succ_eq_add_one, List.getD_cons_succ]
        have harith : c + 1 + i = c + (i + 1) := by omega
        rw [harith]

/-! ### Claim C6 -/

/-- Claim C6 (counterexample): `format_src` with `linenos` does NOT
zero-pad the line numbers as claimed; at a ten-line part with
`startline = 1` the width is 2, and the first rendered line starts with
`" 1 "` (space-padded), not `"01 "`. -/
theorem C6_counterexample :
    format_src padDemoPart true true 1 none ≠ joinNL (format_src_claimC6 padDemoPart 1) := by
  decide

/-- Claim C6 as amended: `Part.format` with `linenos` true prefixes each
source line with a SPACE-padded (right-aligned) line number of width
`ceil(log10(startline + n_lines))` and prefixes each want line with an
equal width of spaces; the first line number equals
`startline + line_offset` and subsequent line numbers increment by one.
(Stated for parts whose lines are genuine physical lines: nonempty
source, no embedded line separators, and no trailing empty want line —
`format_src` re-splits the joined text, which would drop such a line.) -/
theorem C6_amended_format_src (p : DoctestPart) (startline : Nat)
    (hpos : 1 ≤ startline + p.n_lines)
    (hex : p.exec_lines ≠ [])
    (hexc : ∀ l ∈ p.exec_lines, ('\n' : Char) ∉ l ∧ ('\r' : Char) ∉ l)
    (hwc : ∀ l ∈ p.want_lines.getD [], ('\n' : Char) ∉ l ∧ ('\r' : Char) ∉ l)
    (hwl : (p.want_lines.getD []).getLast? ≠ some []) :
    format_src p true true startline none = joinNL (format_src_amendedC6 p startline) := by
  have hmax : max 1 (startline + p.n_lines) = startline + p.n_lines :=
    Nat.max_eq_right hpos
  -- the source text splits back into the prefixed exec lines
  have hsplit : splitNL (joinNL p.exec_lines) = p.exec_lines :=
    splitNL_joinNL p.exec_lines hex (fun l hl => (hexc l hl).1)
  have hmapped : ∀ l ∈ p.exec_lines.map (fun l => str ">>> " ++ l),
      ('\n' : Char) ∉ l ∧ ('\r' : Char) ∉ l := by
    intro l hl
    rcases List.mem_map.mp hl with ⟨a, ha, rfl⟩
    have := hexc a ha
    constructor
    · intro hmem
      rcases List.mem_append.mp hmem with h | h
      · simp [str] at h
      · exact this.1 h
    · intro hmem
      rcases List.mem_append.mp hmem with h | h
      · simp [str] at h
      · exact this.2 h
  have hmappedLast : (p.exec_lines.map (fun l => str ">>> " ++ l)).getLast? ≠ some [] := by
    apply getLast?_ne_nil_of_all_ne
    intro l hl
    rcases List.mem_map.mp hl with ⟨a, _, rfl⟩
    simp [str]
  have hsrc : pySplitlines (utilsIndent p.source) =
      p.exec_lines.map (fun l => str ">>> " ++ l) := by
    unfold utilsIndent DoctestPart.source
    rw [hsplit]
    exact pySplitlines_joinNL _ hmapped hmappedLast
  have hcore : ∀ nd, nd = ceilLog10 (startline + p.n_lines) →
      format_src_new_lines p true startline nd = format_src_amendedC6 p startline := by
    intro nd hnd
    simp only [format_src_new_lines, format_src_amendedC6, hnd]
    rw [hsrc, numberedLines]
    congr 1
    · -- numbered source lines agree
      rw [List.length_map]
      apply List.map_congr_left
      intro i hi
      have hlt : i < p.exec_lines.length := List.mem_range.mp hi
      have hg : (p.exec_lines.map (fun l => str ">>> " ++ l)).getD i [] =
          str ">>> " ++ p.exec_lines.getD i [] := by
        rw [List.getD_eq_getElem?_getD, List.getD_eq_getElem?_getD,
          List.getElem?_map, List.getElem?_eq_getElem hlt]
        simp
      rw [hg]
      simp [List.append_assoc]
    · -- want lines agree
      cases hwt : p.wantTruthy with
      | false =>
          have hw : p.want = none := by
            unfold DoctestPart.want
            rw [hwt]
            simp
          rw [hw]
          simp
      | true =>
          rcases hwl' : p.want_lines with _ | wl
          · unfold DoctestPart.wantTruthy at hwt
            rw [hwl'] at hwt
            simp at hwt
          · have hwlne : wl ≠ [] := by
              unfold DoctestPart.wantTruthy at hwt
              rw [hwl'] at hwt
              match wl with
              | [] => simp at hwt
              | _ :: _ => simp
            have hw : p.want = some (joinNL wl) := by
              unfold DoctestPart.want
              rw [hwt, hwl']
              simp
            have hwc' : ∀ l ∈ wl, ('\n' : Char) ∉ l ∧ ('\r' : Char) ∉ l := by
              intro l hl
              apply hwc
              rw [hwl']
              simpa using hl
            have hwl2 : wl.getLast? ≠ some [] := by
              rw [hwl'] at hwl
              simpa using hwl
            have hws : pySplitlines (joinNL wl) = wl := pySplitlines_joinNL wl hwc' hwl2
            have hne : joinNL wl ≠ [] := by
              intro h0
              rw [h0] at hws
              simp [pySplitlines, pySplitlinesGo] at hws
              exact hwlne hws
            rw [hw]
            simp [hne, hws]
  show joinNL (format_src_new_lines p true startline
      (ceilLog10 (max 1 (startline + p.n_lines)))) = joinNL (format_src_amendedC6 p startline)
  rw [hmax]
  exact congrArg joinNL (hcore _ rfl)

/-- Witness for the amended claim C6 at the ten-line demo part. -/
theorem C6_amended_format_src_witness :
    format_src padDemoPart true true 1 none = joinNL (format_src_amendedC6 padDemoPart 1) :=
  C6_amended_format_src padDemoPart 1 (by decide) (by decide) (by decide)
    (by decide) (by decide)

/-! ### Claim C4 -/

theorem spec_corrected_succ (bal : List Line → Bool) (lines : List Line)
    (b a : Nat) :
    spec_corrected bal lines b (a + 1) =
      if bal (pySlice lines (a + 1) b) then a + 1 else spec_corrected bal lines b a := by
  unfold spec_corrected
  rw [List.range_succ, List.reverse_append]
  simp only [List.reverse_singleton, List.singleton_append, List.find?]
  cases hb : bal (pySlice lines (a + 1) b) <;> simp

theorem shiftA_eq_spec_corrected (bal : List Line → Bool) (lines : List Line)
    (b : Nat) : ∀ a, shiftA bal lines b a = spec_corrected bal lines b a := by
  intro a
  induction a with
  | zero =>
      unfold shiftA spec_corrected
      have h1 : List.range 1 = [0] := by decide
      rw [h1]
      cases hb : bal (pySlice lines 0 b) <;> simp [List.find?, hb]
  | succ a ih =>
      rw [spec_corrected_succ]
      unfold shiftA
      cases hb : bal (pySlice lines (a + 1) b) <;> simp [hb, ih]

theorem workaroundGo_eq_spec_walk (bal : List Line → Bool) (lines : List Line) :
    ∀ cand b, workaroundGo bal lines b cand = spec_walk bal lines b cand := by
  intro cand
  induction cand with
  | nil => intro b; rfl
  | cons a rest ih =>
      intro b
      simp only [workaroundGo, spec_walk]
      rw [shiftA_eq_spec_corrected, ih]

/-- Claim C4: the multi-line-string correction walks the candidate
statement-start indices in reverse with a right end `b` initialized to
the number of exec lines; for each candidate `a` it decrements `a` while
the balance oracle reports `exec_lines[a:b]` unbalanced, records the
corrected `a`, and sets `b` to that `a`; the resulting corrected set,
minus every index whose original source line lacked the `">>> "` prefix,
is the PS1 set returned by `_locate_ps1_linenos`. -/
theorem C4_workaround16806_ps2_exclusion (C : Collab) (source_lines : List Line)
    (nodes : List AstNode) (ps1 : List Nat) (ev : Bool)
    (hast : C.astParse (joinNL (execHacked source_lines)) = .ok nodes)
    (hok : locate_ps1_linenos C source_lines = .ok (ps1, ev)) :
    ps1 = spec_ps1_set C.is_balanced source_lines
      (nodes.map (fun node => node.lineno - 1)) := by
  simp only [locate_ps1_linenos, hast] at hok
  cases hl : nodes.getLast? with
  | none => rw [hl] at hok; simp at hok
  | some lastNode =>
      rw [hl] at hok
      simp only [Except.ok.injEq, Prod.mk.injEq] at hok
      obtain ⟨hps1, hev⟩ := hok
      rw [← hps1]
      unfold spec_ps1_set workaround_16806
      rw [workaroundGo_eq_spec_walk]

/-- Witness for C4: on the multi-line-string block the corrected PS1 set
is `[0]` (shifted down from candidate `1`), with line `1` excluded as a
PS2 line. -/
theorem C4_workaround16806_ps2_exclusion_witness :
    locate_ps1_linenos c4Collab [str ">>> '''", str "... x'''"] = .ok ([0], true) ∧
    [0] = spec_ps1_set c4Collab.is_balanced [str ">>> '''", str "... x'''"]
      (([⟨2, true⟩] : List AstNode).map (fun node => node.lineno - 1)) :=
  ⟨by decide,
   C4_workaround16806_ps2_exclusion c4Collab [str ">>> '''", str "... x'''"]
     [⟨2, true⟩] [0] true (by decide) (by decide)⟩

/-! ### Shape of the parts emitted by `_package_chunk` -/

theorem wantTruthy_of_want_none (p : DoctestPart) (h : p.want_lines = none) :
    p.wantTruthy = false := by
  unfold DoctestPart.wantTruthy
  rw [h]

theorem wantTruthy_of_want_some (p : DoctestPart) (wl : List Line)
    (h : p.want_lines = some wl) : p.wantTruthy = decide (wl ≠ []) := by
  unfold DoctestPart.wantTruthy
  rw [h]
  cases wl <;> simp

/-- The parts of the leading loops are always prompt-slice parts without
a want. -/
theorem initOf_shape (C : Collab) (repl : Bool) (ex src : List Line)
    (m : List (Nat × List Directive)) (bl : List Nat) (ps1 : List Nat) (ln : Nat) :
    ∃ specs : List (Nat × Nat),
      (initOf C repl ex src m bl ps1 ln).1 =
        specs.map (fun ab => slice_example ex src m ln ab.1 (some ab.2) none) := by
  unfold initOf
  by_cases hr : repl = true
  · rw [if_pos hr]
    exact ⟨ps1.zip ps1.tail, rfl⟩
  · rw [if_neg hr]
    by_cases hb : bl ≠ []
    · rw [if_pos hb]
      exact ⟨(sortNat ((0 :: bl).dedup)).zip (sortNat ((0 :: bl).dedup)).tail, rfl⟩
    · rw [if_neg hb]
      exact ⟨[], rfl⟩

/-- The eval-isolation step returns either the incoming pair or the pair
extended by one more prompt-slice part without a want. -/
theorem stepOf_shape (C : Collab) (repl : Bool) (ex src : List Line)
    (m : List (Nat × List Directive)) (wl : List Line) (ev : Bool)
    (ps1 : List Nat) (ln : Nat) (init : List DoctestPart × Nat)
    (pf : List DoctestPart × Nat)
    (hok : stepOf C repl ex src m wl ev ps1 ln init = .ok pf) :
    pf = init ∨ ∃ s2, pf = (init.1 ++ [slice_example ex src m ln init.2 (some s2) none], s2) := by
  unfold stepOf at hok
  by_cases hr : repl = true
  · rw [if_pos hr] at hok
    exact Or.inl (Except.ok.inj hok).symm
  · rw [if_neg hr] at hok
    by_cases hwe : wl ≠ [] ∧ ev = true
    · rw [if_pos hwe] at hok
      cases hgl : ps1.getLast? with
      | none => rw [hgl] at hok; cases hok
      | some s2 =>
          rw [hgl] at hok
          dsimp only at hok
          by_cases hs2 : s2 ≠ init.2
          · rw [if_pos hs2] at hok
            exact Or.inr ⟨s2, (Except.ok.inj hok).symm⟩
          · rw [if_neg hs2] at hok
            exact Or.inl (Except.ok.inj hok).symm
    · rw [if_neg hwe] at hok
      exact Or.inl (Except.ok.inj hok).symm

/-- Every successful run of the emission phase produces a list of
prompt-slice parts without want followed by one final part carrying the
(possibly empty) want lines, with `use_eval = bool(want_lines) and
eval_final`. -/
theorem chunkParts_shape (C : Collab) (repl : Bool) (ex src wl : List Line)
    (ps1 : List Nat) (ev : Bool) (ln : Nat) (parts : List DoctestPart)
    (hok : chunkParts C repl ex src wl ps1 ev ln = .ok parts) :
    ∃ specs : List (Nat × Option Nat), ∃ m s1f,
      parts = specs.map (fun ab => slice_example ex src m ln ab.1 ab.2 none)
        ++ [{ slice_example ex src m ln s1f none (some wl) with
              use_eval := decide (wl ≠ []) && ev }] := by
  unfold chunkParts at hok
  dsimp only at hok
  set m := (breakStateOf C ex ps1).2 with hm
  set bl := (breakStateOf C ex ps1).1 with hbl
  cases hstep : stepOf C repl ex src m wl ev ps1 ln
      (initOf C repl ex src m bl ps1 ln) with
  | error e => rw [hstep] at hok; cases hok
  | ok pf =>
      rw [hstep] at hok
      dsimp only at hok
      replace hok := (Except.ok.inj hok).symm
      obtain ⟨specs0, hinit⟩ := initOf_shape C repl ex src m bl ps1 ln
      rcases stepOf_shape C repl ex src m wl ev ps1 ln _ pf hstep with hpf | ⟨s2, hpf⟩
      · refine ⟨specs0.map (fun ab => (ab.1, some ab.2)), m, pf.2, ?_⟩
        rw [hok, hpf, hinit]
        simp [List.map_map, Function.comp]
      · refine ⟨specs0.map (fun ab => (ab.1, some ab.2)) ++
          [((initOf C repl ex src m bl ps1 ln).2, some s2)], m, pf.2, ?_⟩
        rw [hok, hpf]
        simp only [List.map_append, List.map_map]
        rw [hinit]
        simp [Function.comp, List.append_assoc]

/-! ### Claims C1 and C3 -/

/-- Claim C1: for every part emitted by `_package_chunk`, `use_eval` is
true iff the part has a non-empty `want_lines` AND the chunk's final
statement is a bare expression per the AST (`eval_final` from
`_locate_ps1_linenos`); consequently `use_eval` is false for every part
emitted without a want. -/
theorem C1_use_eval_iff (C : Collab) (repl : Bool) (rs rw : List Line)
    (ln : Nat) (parts : List DoctestPart) (ps1 : List Nat) (ev : Bool)
    (hok : package_chunk C repl rs rw ln = .ok parts)
    (hloc : locate_ps1_linenos C
      (rs.map (fun p => p.drop (pyLineIndent (rs.headD [])))) = .ok (ps1, ev)) :
    ∀ p ∈ parts, p.use_eval = (p.wantTruthy && ev) := by
  match rs with
  | [] => simp [package_chunk] at hok
  | first :: rest =>
      simp only [List.headD_cons] at hloc
      simp only [package_chunk] at hok
      rw [hloc] at hok
      dsimp only at hok
      obtain ⟨specs, m, s1f, hshape⟩ :=
        chunkParts_shape C repl _ _ _ ps1 ev ln parts hok
      intro p hp
      rw [hshape] at hp
      rcases List.mem_append.mp hp with h | h
      · rcases List.mem_map.mp h with ⟨ab, _, rfl⟩
        have h2 : (slice_example (((first :: rest).map
            (fun p => p.drop (pyLineIndent first))).map (fun p => p.drop 4))
            ((first :: rest).map (fun p => p.drop (pyLineIndent first)))
            m ln ab.1 ab.2 none).want_lines = none := rfl
        rw [wantTruthy_of_want_none _ h2]
        rfl
      · rw [List.mem_singleton.mp h]
        rw [wantTruthy_of_want_some _ (rw.map (fun p => p.drop (pyLineIndent first))) rfl]

/-- Witness for C1 at the `>>> 2 + 2` / `4` chunk. -/
theorem C1_use_eval_iff_witness :
    c1DemoPart.use_eval = (c1DemoPart.wantTruthy && true) :=
  C1_use_eval_iff c1Collab false [str ">>> 2 + 2"] [str "4"] 0
    [c1DemoPart] [0] true (by decide) (by decide) c1DemoPart (by decide)

theorem bd1Of_no_directives (C : Collab) (ex : List Line) (ps1 : List Nat)
    (hnd : ∀ l, C.extr l = []) : bd1Of C ex ps1 = [] := by
  unfold bd1Of
  induction ps1 with
  | nil => rfl
  | cons a r ih => simpa [List.filterMap_cons, hnd] using ih

theorem breakPass2_no_directives (C : Collab) (ex : List Line)
    (hnd : ∀ l, C.extr l = []) :
    ∀ prs bl m, breakPass2 C ex prs bl m = (bl, m) := by
  intro prs
  induction prs with
  | nil => intro bl m; rfl
  | cons h r ih =>
      intro bl m
      obtain ⟨s1, s2?⟩ := h
      unfold breakPass2
      by_cases hmem : s1 ∈ bl
      · rw [if_pos hmem]; exact ih bl m
      · rw [if_neg hmem]
        simp only [hnd, if_pos rfl]
        exact ih bl m

/-- Claim C3: when a `(source, want)` group has non-empty `want_lines`
and its final top-level AST node is a bare expression, `_package_chunk`
(without REPL mode and with no directives present) isolates the final
statement `exec[L:]` into its own part carrying `use_eval = true` and
the want lines; the preceding source content, when non-empty, is emitted
as a part with no want. -/
theorem C3_eval_final_isolated (C : Collab) (first : Line) (rest rw : List Line)
    (ln : Nat) (parts : List DoctestPart) (ps1 : List Nat) (L : Nat)
    (hnd : ∀ l, C.extr l = [])
    (hok : package_chunk C false (first :: rest) rw ln = .ok parts)
    (hloc : locate_ps1_linenos C
      ((first :: rest).map (fun p => p.drop (pyLineIndent first))) = .ok (ps1, true))
    (hw : rw ≠ [])
    (hL : ps1.getLast? = some L) :
    (L = 0 → parts = [{ slice_example
        (((first :: rest).map (fun p => p.drop (pyLineIndent first))).map (fun p => p.drop 4))
        ((first :: rest).map (fun p => p.drop (pyLineIndent first))) [] ln 0 none
        (some (rw.map (fun p => p.drop (pyLineIndent first)))) with use_eval := true }]) ∧
    (L ≠ 0 → parts = [slice_example
        (((first :: rest).map (fun p => p.drop (pyLineIndent first))).map (fun p => p.drop 4))
        ((first :: rest).map (fun p => p.drop (pyLineIndent first))) [] ln 0 (some L) none,
      { slice_example
        (((first :: rest).map (fun p => p.drop (pyLineIndent first))).map (fun p => p.drop 4))
        ((first :: rest).map (fun p => p.drop (pyLineIndent first))) [] ln L none
        (some (rw.map (fun p => p.drop (pyLineIndent first)))) with use_eval := true }]) := by
  simp only [package_chunk] at hok
  rw [hloc] at hok
  dsimp only at hok
  have hwl : rw.map (fun p => p.drop (pyLineIndent first)) ≠ [] := by
    simpa using hw
  have hbs : breakStateOf C
      ((((first :: rest).map (fun p => p.drop (pyLineIndent first))).map (fun p => p.drop 4)))
      ps1 = ([], []) := by
    unfold breakStateOf
    rw [bd1Of_no_directives C _ ps1 hnd]
    rw [breakPass2_no_directives C _ hnd]
    rfl
  unfold chunkParts at hok
  rw [hbs] at hok
  dsimp only at hok
  unfold initOf at hok
  simp only [Bool.false_eq_true, if_false, ne_eq, not_true_eq_false, if_neg] at hok
  unfold stepOf at hok
  simp only [Bool.false_eq_true, if_false, hL] at hok
  rw [if_pos ⟨hwl, trivial⟩] at hok
  have hue : decide ((rw.map (fun p => p.drop (pyLineIndent first))) ≠ []) && true = true := by
    simp [hwl]
  by_cases hL0 : L = 0
  · subst hL0
    rw [if_neg (by simp)] at hok
    dsimp only at hok
    replace hok := (Except.ok.inj hok).symm
    constructor
    · intro _
      rw [hok]
      simp [hue, hw]
    · intro hcon
      exact absurd rfl hcon
  · rw [if_pos (by simpa using hL0)] at hok
    dsimp only at hok
    replace hok := (Except.ok.inj hok).symm
    constructor
    · intro h0
      exact absurd h0 hL0
    · intro _
      rw [hok]
      simp [hue, hw]

/-- Witness for C3: `>>> x = 1` / `>>> x + 1` with want `2` splits into
a no-want part for `x = 1` and an evaluated part for `x + 1`. -/
theorem C3_eval_final_isolated_witness :
    ([{ exec_lines := [str "x = 1"], want_lines := none, line_offset := 0,
        orig_lines := some [str ">>> x = 1"], use_eval := false, directives := none },
      { exec_lines := [str "x + 1"], want_lines := some [str "2"], line_offset := 1,
        orig_lines := some [str ">>> x + 1"], use_eval := true, directives := none }]
      : List DoctestPart) = [slice_example
        ((([str ">>> x = 1", str ">>> x + 1"]).map (fun p => p.drop (pyLineIndent (str ">>> x = 1")))).map (fun p => p.drop 4))
        (([str ">>> x = 1", str ">>> x + 1"]).map (fun p => p.drop (pyLineIndent (str ">>> x = 1")))) [] 0 0 (some 1) none,
      { slice_example
        ((([str ">>> x = 1", str ">>> x + 1"]).map (fun p => p.drop (pyLineIndent (str ">>> x = 1")))).map (fun p => p.drop 4))
        (([str ">>> x = 1", str ">>> x + 1"]).map (fun p => p.drop (pyLineIndent (str ">>> x = 1")))) [] 0 1 none
        (some (([str "2"]).map (fun p => p.drop (pyLineIndent (str ">>> x = 1"))))) with use_eval := true }] :=
  (C3_eval_final_isolated c3Collab (str ">>> x = 1") [str ">>> x + 1"] [str "2"] 0
    _ [0, 1] 1 (fun _ => rfl) (by decide) (by decide) (by decide) (by decide)).2 (by decide)

/-! ### Claim C5 -/

theorem dropWhile_append_ws (xs ys : List Char) (h : ∀ c ∈ xs, isWS c = true) :
    (xs ++ ys).dropWhile isWS = ys.dropWhile isWS := by
  induction xs with
  | nil => simp
  | cons c r ih =>
      rw [List.cons_append, List.dropWhile_cons,
        if_pos (h c (List.mem_cons_self c r))]
      exact ih (fun c hc => h c (List.mem_cons_of_mem _ hc))

theorem pyLineIndent_le_leading (l : Line) : pyLineIndent l ≤ leadingSpaces l := by
  unfold pyLineIndent
  cases hld : l.drop (leadingSpaces l) with
  | nil => simp [hld]
  | cons c t =>
      by_cases hc : isWS c = true
      · simp [hld, hc]
      · simp [hld, hc]

theorem pyStrip_drop_of_le_leading (line : Line) (si : Nat)
    (h : si ≤ leadingSpaces line) :
    pyStrip (line.drop si) = pyStrip line := by
  have hsplit : line.takeWhile (fun c => c = ' ') ++ line.dropWhile (fun c => c = ' ') = line :=
    List.takeWhile_append_dropWhile _ _
  have hlen : si ≤ (line.takeWhile (fun c => c = ' ')).length := h
  have hdrop : line.drop si =
      (line.takeWhile (fun c => c = ' ')).drop si ++ line.dropWhile (fun c => c = ' ') := by
    conv_lhs => rw [← hsplit]
    exact List.drop_append_of_le_length hlen
  have hws1 : ∀ c ∈ line.takeWhile (fun c => c = ' '), isWS c = true := by
    intro c hc
    have := List.mem_takeWhile_imp hc
    have hc' : c = ' ' := by simpa using this
    rw [hc']
    rfl
  have hws2 : ∀ c ∈ (line.takeWhile (fun c => c = ' ')).drop si, isWS c = true :=
    fun c hc => hws1 c (List.mem_of_mem_drop hc)
  have h1 : List.dropWhile isWS (line.drop si) =
      List.dropWhile isWS (line.dropWhile (fun c => c = ' ')) := by
    rw [hdrop]
    exact dropWhile_append_ws _ _ hws2
  have h2 : List.dropWhile isWS line =
      List.dropWhile isWS (line.dropWhile (fun c => c = ' ')) := by
    conv_lhs => rw [← hsplit]
    exact dropWhile_append_ws _ _ hws1
  unfold pyStrip pyLstrip
  rw [h1, h2]

/-- Claim C5: in the labeler, when the previous state is `DSRC` and the
current line — not dedented below `state_indent` — trims to exactly
`"..."` after the `state_indent` columns, the line is labeled `WANT`
(the output-ellipsis sentinel), not `DSRC`, even though a `"... "`
prefix would otherwise continue the source run. -/
theorem C5_output_ellipsis_sentinel (si : Nat) (line : Line)
    (hind : ¬ pyLineIndent line < si)
    (hdots : pyStrip (line.drop si) = str "...") :
    nextState .DSRC si line = .WANT := by
  have hle : si ≤ pyLineIndent line := Nat.le_of_not_lt hind
  have hle2 : si ≤ leadingSpaces line := le_trans hle (pyLineIndent_le_leading line)
  have hstrip : pyStrip line = str "..." := by
    rw [← pyStrip_drop_of_le_leading line si hle2]
    exact hdots
  have hne : pyStrip line ≠ [] := by
    rw [hstrip]
    simp [str]
  simp only [nextState]
  rw [if_neg (not_or.mpr ⟨hne, hind⟩)]
  by_cases hp : ((str ">>> ").isPrefixOf (line.drop si) = true ∨
      (str "... ").isPrefixOf (line.drop si) = true)
  · rw [if_pos hp, if_pos hstrip]
  · rw [if_neg hp]

/-- Witness for C5 at the bare `"..."` line with `state_indent = 0`. -/
theorem C5_output_ellipsis_sentinel_witness :
    nextState .DSRC 0 (str "...") = .WANT :=
  C5_output_ellipsis_sentinel 0 (str "...") (by decide) (by decide)

/-! ### Claim C9 -/

/-- Claim C9: for every input that is not a string, `parse` raises a
plain `TypeError` before any parsing work, not the `DoctestParseError`
wrapper. -/
theorem C9_non_string_type_error (C : Collab) (repl : Bool) (info : Option Nat) :
    parsePy C repl PyVal.notStr info = .error .typeError := rfl

/-! ### Counterexamples to claims C2 and C7 -/

/-- Claim C2 (counterexample): a blank line pulled mid-statement by the
balance oracle ends up in `orig_lines` and begins with neither `">>> "`
nor `"... "`; the claimed prefix invariant fails on
`">>> x = [1,\n\n>>> 2]"`. -/
theorem C2_counterexample :
    parse c2Collab false (str ">>> x = [1,\n\n>>> 2]") none = .ok [.part c2DemoPart] ∧
    ¬ (∀ l ∈ c2DemoPart.orig_lines.getD [],
        (str ">>> ").isPrefixOf l = true ∨ (str "... ").isPrefixOf l = true) := by
  constructor
  · decide
  · decide

/-- Claim C7 (counterexample): on `">>>  # hi"` (two spaces after the
prompt) the balance oracle reports balance, every prefix is fine, and
the AST parser succeeds — with an empty statement list — yet `parse`
raises a `DoctestParseError` (wrapping the `statement_nodes[-1]`
`IndexError`), a case outside the three causes the claim enumerates. -/
theorem C7_counterexample :
    parse c7Collab false (str ">>>  # hi") none =
      .error (.doctestParseError (str ">>>  # hi") none .indexError) ∧
    (PErr.indexError ≠ PErr.illFormed ∧
      (∀ i l, PErr.indexError ≠ PErr.badIndentation i l) ∧
      PErr.indexError ≠ PErr.astSyntaxError) := by
  refine ⟨by decide, by simp, fun i l => by simp, by simp⟩

/-! ### Claim C8 -/

theorem snd_mem_of_mem_enumFrom (xs : List Line) :
    ∀ n p, p ∈ List.enumFrom n xs → p.2 ∈ xs := by
  induction xs with
  | nil => intro n p hp; simp [List.enumFrom] at hp
  | cons x r ih =>
      intro n p hp
      rcases List.mem_cons.mp hp with h | h
      · rw [h]; exact List.mem_cons_self x r
      · exact List.mem_cons_of_mem _ (ih (n + 1) p h)

theorem map_snd_enumFrom (xs : List Line) (f : Line → Label × Line) :
    ∀ n, (List.enumFrom n xs).map (fun p => f p.2) = xs.map f := by
  induction xs with
  | nil => intro n; rfl
  | cons x r ih => intro n; simp only [List.enumFrom, List.map_cons, ih]

theorem labelLoop_all_text (bal : List Line → Bool) :
    ∀ (fuel : Nat) (xs : List (Nat × Line)) (si : Nat),
      (∀ p ∈ xs, ¬ (str ">>> ").isPrefixOf (pyStrip p.2) = true) →
      xs.length < fuel →
      labelLoop bal fuel .TEXT si xs = .ok (xs.map (fun p => (Label.TEXT, p.2))) := by
  intro fuel
  induction fuel with
  | zero => intro xs si _ hlen; exact absurd hlen (by omega)
  | succ n ih =>
      intro xs si h hlen
      match xs with
      | [] => rfl
      | (i, l) :: rest =>
          have hl := h (i, l) (List.mem_cons_self _ rest)
          have hcurr : nextState .TEXT si l = .TEXT := by
            simp only [nextState]
            rw [if_neg hl]
          simp only [labelLoop, hcurr]
          rw [if_neg (show ¬ (Label.TEXT ≠ Label.TEXT) from fun hx => hx rfl)]
          have hrec := ih rest si (fun p hp => h p (List.mem_cons_of_mem _ hp))
            (by simp at hlen; omega)
          rw [hrec]
          rfl

theorem pyGroupBy_text (xs : List Line) :
    ∀ g ∈ pyGroupBy (xs.map (fun l => (Label.TEXT, l))), g.1 = Label.TEXT := by
  induction xs with
  | nil => simp [pyGroupBy]
  | cons x r ih =>
      intro g hg
      simp only [List.map_cons, pyGroupBy] at hg
      cases hpg : pyGroupBy (r.map (fun l => (Label.TEXT, l))) with
      | nil =>
          rw [hpg] at hg
          simp at hg
          rw [hg]
      | cons g0 gs =>
          rw [hpg] at hg
          obtain ⟨k', ls⟩ := g0
          have hk' : k' = Label.TEXT := ih (k', ls) (by rw [hpg]; exact List.mem_cons_self _ _)
          subst hk'
          dsimp only at hg
          rw [if_pos rfl] at hg
          rcases List.mem_cons.mp hg with h | h
          · rw [h]
          · exact ih g (by rw [hpg]; exact List.mem_cons_of_mem _ h)

theorem group_text_only : ∀ gs : List (Label × List Line),
    (∀ g ∈ gs, g.1 = Label.TEXT) →
    group_labeled_lines none gs = .ok (gs.map (fun g => GChunk.textC g.2)) := by
  intro gs
  induction gs with
  | nil => intro _; rfl
  | cons g rest ih =>
      intro h
      obtain ⟨k, b⟩ := g
      have hk : k = .TEXT := h (k, b) (List.mem_cons_self _ rest)
      subst hk
      simp only [group_labeled_lines]
      rw [ih (fun g hg => h g (List.mem_cons_of_mem _ hg))]
      rfl

theorem package_groups_text (C : Collab) (repl : Bool) :
    ∀ (chunks : List GChunk) (ln : Nat),
      (∀ c ∈ chunks, ∃ b, c = GChunk.textC b) →
      ∃ items, package_groups C repl chunks ln = .ok items ∧
        ∀ it ∈ items, ∃ t, it = PItem.text t := by
  intro chunks
  induction chunks with
  | nil => intro ln _; exact ⟨[], rfl, by simp⟩
  | cons c rest ih =>
      intro ln h
      obtain ⟨b, rfl⟩ := h _ (List.mem_cons_self _ rest)
      obtain ⟨items, hitems, hall⟩ := ih (ln + b.length)
        (fun c hc => h c (List.mem_cons_of_mem _ hc))
      refine ⟨PItem.text (joinNL b) :: items, ?_, ?_⟩
      · simp only [package_groups, hitems]
      · intro it hit
        rcases List.mem_cons.mp hit with h' | h'
        · exact ⟨joinNL b, h'⟩
        · exact hall it h'

/-- Claim C8: `parse` succeeds on an empty docstring (returning the
empty sequence), on any docstring containing only text lines (returning
only text runs), and on a docstring whose source block has no want
lines (returning a part with no want). -/
theorem C8_normal_inputs (C : Collab) (repl : Bool) (s : List Char)
    (info : Option Nat)
    (htext : ∀ l ∈ prepLines s, ¬ (str ">>> ").isPrefixOf (pyStrip l) = true) :
    parse C repl [] info = .ok [] ∧
    (∃ items, parse C repl s info = .ok items ∧
      ∀ it ∈ items, ∃ t, it = PItem.text t) ∧
    parse c8Collab false (str ">>> x = 1") none = .ok [.part c8DemoPart] := by
  refine ⟨rfl, ?_, by decide⟩
  unfold parse parseLines label_docsrc_lines
  have hll := labelLoop_all_text C.is_balanced ((prepLines s).length + 1)
    (prepLines s).enum 0
    (fun p hp => htext p.2 (snd_mem_of_mem_enumFrom _ 0 p hp))
    (by simp [List.enum])
  have hmap : ((prepLines s).enum).map (fun p => (Label.TEXT, p.2)) =
      (prepLines s).map (fun l => (Label.TEXT, l)) :=
    map_snd_enumFrom _ _ 0
  obtain ⟨items, hitems, hall⟩ := package_groups_text C repl
    ((pyGroupBy ((prepLines s).map (fun l => (Label.TEXT, l)))).map
      (fun g => GChunk.textC g.2)) 0
    (by intro c hc; rcases List.mem_map.mp hc with ⟨g, _, rfl⟩; exact ⟨g.2, rfl⟩)
  rw [hll, hmap]
  dsimp only
  rw [group_text_only _ (pyGroupBy_text (prepLines s))]
  dsimp only
  rw [hitems]
  exact ⟨items, rfl, hall⟩

/-- Witness for C8 at the empty docstring and a concrete text-only
docstring. -/
theorem C8_normal_inputs_witness :
    parse c8Collab false [] none = .ok [] :=
  (C8_normal_inputs c8Collab false (str "hello world") none (by decide)).1

/-! ### Cleanliness of the prepared lines: no tab, LF or CR characters
survive `expandtabs` + `splitlines` -/

theorem pyExpandtabsGo_no_tab (s : List Char) :
    ∀ col, ('\t' : Char) ∉ pyExpandtabsGo s col := by
  induction s with
  | nil => intro col; simp [pyExpandtabsGo]
  | cons c rest ih =>
      intro col
      by_cases h1 : c = '\t'
      · simp only [pyExpandtabsGo, h1, if_pos rfl]
        intro hmem
        rcases List.mem_append.mp hmem with h | h
        · exact absurd (List.eq_of_mem_replicate h) (by decide)
        · exact ih _ h
      · by_cases h2 : c = '\n'
        · simp only [pyExpandtabsGo, if_neg h1, h2, if_pos rfl]
          intro hmem
          rcases List.mem_cons.mp hmem with h | h
          · exact absurd h (by decide)
          · exact ih _ h
        · by_cases h3 : c = '\r'
          · simp only [pyExpandtabsGo, if_neg h1, if_neg h2, h3, if_pos rfl]
            intro hmem
            rcases List.mem_cons.mp hmem with h | h
            · exact absurd h (by decide)
            · exact ih _ h
          · simp only [pyExpandtabsGo, if_neg h1, if_neg h2, if_neg h3]
            intro hmem
            rcases List.mem_cons.mp hmem with h | h
            · exact absurd h.symm h1
            · exact ih _ h

theorem pySplitlinesGo_mem : ∀ (s acc : List Char),
    ∀ l ∈ pySplitlinesGo s acc, ∀ c ∈ l, c ∈ s ∨ c ∈ acc := by
  intro s acc
  induction s, acc using pySplitlinesGo.induct with
  | case1 =>
      intro l hl
      simp [pySplitlinesGo] at hl
  | case2 acc hne =>
      intro l hl c hc
      simp only [pySplitlinesGo, if_neg hne] at hl
      rw [List.mem_singleton.mp hl] at hc
      exact Or.inr (List.mem_reverse.mp hc)
  | case3 rest acc ih =>
      intro l hl c hc
      rw [pySplitlinesGo.eq_2] at hl
      rcases List.mem_cons.mp hl with h | h
      · rw [h] at hc
        exact Or.inr (List.mem_reverse.mp hc)
      · rcases ih l h c hc with h2 | h2
        · exact Or.inl (by simp [h2])
        · simp at h2
  | case4 rest acc hne ih =>
      intro l hl c hc
      rw [pySplitlinesGo.eq_3 acc rest hne] at hl
      rcases List.mem_cons.mp hl with h | h
      · rw [h] at hc
        exact Or.inr (List.mem_reverse.mp hc)
      · rcases ih l h c hc with h2 | h2
        · exact Or.inl (by simp [h2])
        · simp at h2
  | case5 rest acc ih =>
      intro l hl c hc
      rw [pySplitlinesGo.eq_4] at hl
      rcases List.mem_cons.mp hl with h | h
      · rw [h] at hc
        exact Or.inr (List.mem_reverse.mp hc)
      · rcases ih l h c hc with h2 | h2
        · exact Or.inl (by simp [h2])
        · simp at h2
  | case6 c' rest acc hx1 hx2 hx3 ih =>
      intro l hl c hc
      rw [pySplitlinesGo.eq_5 acc c' rest hx1 hx2 hx3] at hl
      rcases ih l hl c hc with h2 | h2
      · exact Or.inl (List.mem_cons_of_mem _ h2)
      · rcases List.mem_cons.mp h2 with h3 | h3
        · exact Or.inl (by rw [h3]; exact List.mem_cons_self _ _)
        · exact Or.inr h3

theorem pySplitlinesGo_sep_free : ∀ (s acc : List Char),
    (∀ c ∈ acc, c ≠ '\n' ∧ c ≠ '\r') →
    ∀ l ∈ pySplitlinesGo s acc, ∀ c ∈ l, c ≠ '\n' ∧ c ≠ '\r' := by
  intro s acc
  induction s, acc using pySplitlinesGo.induct with
  | case1 =>
      intro _ l hl
      simp [pySplitlinesGo] at hl
  | case2 acc hne =>
      intro hacc l hl c hc
      simp only [pySplitlinesGo, if_neg hne] at hl
      rw [List.mem_singleton.mp hl] at hc
      exact hacc c (List.mem_reverse.mp hc)
  | case3 rest acc ih =>
      intro hacc l hl c hc
      rw [pySplitlinesGo.eq_2] at hl
      rcases List.mem_cons.mp hl with h | h
      · rw [h] at hc
        exact hacc c (List.mem_reverse.mp hc)
      · exact ih (by simp) l h c hc
  | case4 rest acc hne ih =>
      intro hacc l hl c hc
      rw [pySplitlinesGo.eq_3 acc rest hne] at hl
      rcases List.mem_cons.mp hl with h | h
      · rw [h] at hc
        exact hacc c (List.mem_reverse.mp hc)
      · exact ih (by simp) l h c hc
  | case5 rest acc ih =>
      intro hacc l hl c hc
      rw [pySplitlinesGo.eq_4] at hl
      rcases List.mem_cons.mp hl with h | h
      · rw [h] at hc
        exact hacc c (List.mem_reverse.mp hc)
      · exact ih (by simp) l h c hc
  | case6 c' rest acc hx1 hx2 hx3 ih =>
      intro hacc l hl c hc
      rw [pySplitlinesGo.eq_5 acc c' rest hx1 hx2 hx3] at hl
      refine ih ?_ l hl c hc
      intro d hd
      rcases List.mem_cons.mp hd with h3 | h3
      · subst h3
        exact ⟨fun h => hx3 h, fun h => hx2 h⟩
      · exact hacc d h3

/-- Every character of every prepared line is neither a tab nor a line
separator. -/
theorem prepLines_clean (s : List Char) :
    ∀ l ∈ prepLines s, ∀ c ∈ l, c ≠ '\t' ∧ c ≠ '\n' ∧ c ≠ '\r' := by
  intro l hl c hc
  unfold prepLines at hl
  rcases List.mem_map.mp hl with ⟨l0, hl0, rfl⟩
  have hc0 : c ∈ l0 := List.mem_of_mem_drop hc
  have hsep := pySplitlinesGo_sep_free (pyExpandtabs s) [] (by simp) l0 hl0 c hc0
  have hmem := pySplitlinesGo_mem (pyExpandtabs s) [] l0 hl0 c hc0
  refine ⟨?_, hsep.1, hsep.2⟩
  rcases hmem with h | h
  · intro hct
    rw [hct] at h
    exact pyExpandtabsGo_no_tab s 0 h
  · simp at h

/-! ### The prefix invariant of labeled source lines -/

/-- The uniform prefix condition of a source line relative to a
state indent: the first four characters after the indent strip to
`">>>"`, `"..."` or the empty string.  This is exactly the condition
`_complete_source` checks on pulled lines. -/
theorem isWS_char (c : Char) (h : isWS c = true) :
    c = ' ' ∨ c = '\t' ∨ c = '\r' ∨ c = '\n' := by
  simp [isWS, Char.isWhitespace] at h
  tauto

theorem dropWhile_eq_drop_len (p : Char → Bool) (l : List Char) :
    l.dropWhile p = l.drop (l.takeWhile p).length := by
  induction l with
  | nil => rfl
  | cons c r ih =>
      rw [List.dropWhile_cons, List.takeWhile_cons]
      by_cases h : p c
      · simp [h, ih]
      · simp [h]

theorem dropWhile_head_false (p : Char → Bool) (l : List Char) (c : Char)
    (t : List Char) (h : l.dropWhile p = c :: t) : p c = false := by
  induction l with
  | nil => simp at h
  | cons x r ih =>
      rw [List.dropWhile_cons] at h
      by_cases hp : p x
      · rw [if_pos hp] at h
        exact ih h
      · rw [if_neg hp] at h
        injection h with h1 _
        rw [← h1]
        exact Bool.eq_false_iff.mpr hp

theorem take_of_isPrefixOf (s t : Line) (h : s.isPrefixOf t = true) :
    t.take s.length = s := by
  obtain ⟨r, rfl⟩ := List.isPrefixOf_iff_prefix.mp h
  exact List.take_left s r

theorem pyRstrip_prefix (l : Line) : ∃ t, l = pyRstrip l ++ t := by
  refine ⟨(l.reverse.takeWhile isWS).reverse, ?_⟩
  unfold pyRstrip
  rw [← List.reverse_append, List.takeWhile_append_dropWhile, List.reverse_reverse]

/-- On a clean line (no tab/LF/CR), `lstrip` coincides with dropping the
leading spaces. -/
theorem pyLstrip_clean (l : Line)
    (hclean : ∀ c ∈ l, c ≠ '\t' ∧ c ≠ '\n' ∧ c ≠ '\r') :
    pyLstrip l = l.dropWhile (fun c => c = ' ') := by
  have hsplit : l.takeWhile (fun c => c = ' ') ++ l.dropWhile (fun c => c = ' ') = l :=
    List.takeWhile_append_dropWhile _ _
  have hws : ∀ c ∈ l.takeWhile (fun c => c = ' '), isWS c = true := by
    intro c hc
    have := List.mem_takeWhile_imp hc
    have hc' : c = ' ' := by simpa using this
    rw [hc']
    rfl
  unfold pyLstrip
  conv_lhs => rw [← hsplit]
  rw [dropWhile_append_ws _ _ hws]
  cases hdw : l.dropWhile (fun c => c = ' ') with
  | nil => rfl
  | cons c t =>
      rw [List.dropWhile_cons]
      have hcs : (c = ' ') = False := by
        simpa using dropWhile_head_false _ l c t hdw
      have hcl : c ∈ l := by
        have : c ∈ l.dropWhile (fun c => c = ' ') := by rw [hdw]; exact List.mem_cons_self _ _
        exact List.dropWhile_subset _ this
      have hni : isWS c = false := by
        by_contra hni
        have hni' : isWS c = true := by revert hni; cases isWS c <;> simp
        rcases isWS_char c hni' with h | h | h | h
        · rw [h] at hcs; simp at hcs
        · exact (hclean c hcl).1 h
        · exact (hclean c hcl).2.2 h
        · exact (hclean c hcl).2.1 h
      rw [if_neg (by simp [hni])]

/-- On a clean line whose stripped form begins with a four-character
prompt `pr`, the line after its `pyLineIndent` begins with `pr` exactly
(the `">>> "` / `"... "` entry condition of the labeler). -/
theorem take4_of_strip_prompt (l : Line) (pr : Line) (hpr : pr.length = 4)
    (hhead : ∀ t, pr ++ t ≠ [] → ∃ c t', pr ++ t = c :: t' ∧ isWS c = false)
    (hclean : ∀ c ∈ l, c ≠ '\t' ∧ c ≠ '\n' ∧ c ≠ '\r')
    (hpre : pr.isPrefixOf (pyStrip l) = true) :
    (l.drop (pyLineIndent l)).take 4 = pr := by
  have hstrip : pyStrip l = pyRstrip (l.dropWhile (fun c => c = ' ')) := by
    unfold pyStrip
    rw [pyLstrip_clean l hclean]
  obtain ⟨tr, htr⟩ := pyRstrip_prefix (l.dropWhile (fun c => c = ' '))
  obtain ⟨t0, ht0⟩ := List.isPrefixOf_iff_prefix.mp hpre
  have hprne : pr ≠ [] := by
    intro h
    rw [h] at hpr
    simp at hpr
  have hdw : l.dropWhile (fun c => c = ' ') = pr ++ (t0 ++ tr) := by
    have h1 : pyRstrip (l.dropWhile (fun c => c = ' ')) = pr ++ t0 := by
      rw [← hstrip, ← ht0]
    rw [htr, h1, List.append_assoc]
  have htake : (l.dropWhile (fun c => c = ' ')).take 4 = pr := by
    rw [hdw, ← hpr]
    exact List.take_left pr _
  have hd : l.drop (l.takeWhile (fun c => c = ' ')).length =
      l.dropWhile (fun c => c = ' ') := (dropWhile_eq_drop_len _ l).symm
  obtain ⟨c, t', hct, hcw⟩ := hhead (t0 ++ tr)
    (fun hx => hprne (List.append_eq_nil.mp hx).1)
  have hlind : pyLineIndent l = (l.takeWhile (fun c => c = ' ')).length := by
    simp only [pyLineIndent, leadingSpaces]
    rw [hd, hdw, hct]
    simp [hcw]
  rw [hlind, hd, htake]

theorem goodSrc4_of_take_ps1 (si : Nat) (l : Line)
    (h : (l.drop si).take 4 = str ">>> ") : goodSrc4 si l := by
  left
  rw [h]
  decide

theorem goodSrc4_of_take_ps2 (si : Nat) (l : Line)
    (h : (l.drop si).take 4 = str "... ") : goodSrc4 si l := by
  right; left
  rw [h]
  decide

/-! ### Inversion of `nextState` -/

theorem nextState_text_dsrc (si : Nat) (l : Line)
    (h : nextState .TEXT si l = .DSRC) :
    (str ">>> ").isPrefixOf (pyStrip l) = true := by
  by_contra hc
  simp only [nextState] at h
  rw [if_neg hc] at h
  cases h

theorem nextState_want_dsrc (si : Nat) (l : Line)
    (h : nextState .WANT si l = .DSRC) :
    (str ">>> ").isPrefixOf (pyStrip l) = true := by
  by_contra hc
  simp only [nextState] at h
  by_cases h0 : pyStrip l = []
  · rw [if_pos h0] at h; cases h
  · rw [if_neg h0, if_neg hc] at h
    by_cases h1 : pyLineIndent l < si
    · rw [if_pos h1] at h; cases h
    · rw [if_neg h1] at h; cases h

theorem nextState_dsrc_dsrc (si : Nat) (l : Line)
    (h : nextState .DSRC si l = .DSRC) :
    (str ">>> ").isPrefixOf (l.drop si) = true ∨
    (str "... ").isPrefixOf (l.drop si) = true := by
  simp only [nextState] at h
  by_cases h0 : pyStrip l = [] ∨ pyLineIndent l < si
  · rw [if_pos h0] at h; cases h
  · rw [if_neg h0] at h
    by_cases h1 : ((str ">>> ").isPrefixOf (l.drop si) = true ∨
        (str "... ").isPrefixOf (l.drop si) = true)
    · exact h1
    · rw [if_neg h1] at h; cases h

theorem nextState_text_ne_want (si : Nat) (l : Line) :
    nextState .TEXT si l ≠ .WANT := by
  simp only [nextState]
  by_cases h : (str ">>> ").isPrefixOf (pyStrip l) = true
  · rw [if_pos h]; simp
  · rw [if_neg h]; simp

/-- The DSRC entry condition from TEXT or WANT yields the exact `">>> "`
prefix after the line's own indent. -/
theorem entry_take4_ps1 (l : Line)
    (hclean : ∀ c ∈ l, c ≠ '\t' ∧ c ≠ '\n' ∧ c ≠ '\r')
    (hpre : (str ">>> ").isPrefixOf (pyStrip l) = true) :
    (l.drop (pyLineIndent l)).take 4 = str ">>> " :=
  take4_of_strip_prompt l (str ">>> ") (by decide)
    (fun t _ => ⟨'>', (str ">>> ").tail ++ t, rfl, by decide⟩) hclean hpre

/-! ### The well-formedness invariant of labeled lines -/

theorem wf_src_append (si : Nat) (extra : List Line) (out : List (Label × Line))
    (hg : ∀ l ∈ extra, goodSrc4 si l) (hw : Wf .DSRC si out) :
    Wf .DSRC si (extra.map (fun l => (Label.DSRC, l)) ++ out) := by
  induction extra with
  | nil => exact hw
  | cons x r ih =>
      exact Wf.srcCont si x _ (hg x (List.mem_cons_self x r))
        (ih (fun l hl => hg l (List.mem_cons_of_mem _ hl)))

/-! ### Behaviour of `_complete_source` -/

theorem completeSourceAux_spec (bal : List Line → Bool) (si : Nat) :
    ∀ (rest : List (Nat × Line)) (sp pulled : List Line) (rem : List (Nat × Line)),
      completeSourceAux bal si sp rest = .ok (pulled, rem) →
      (∀ l ∈ pulled, goodSrc4 si l) ∧ rem.length ≤ rest.length ∧
        (∀ q ∈ rem, q ∈ rest) := by
  intro rest
  induction rest with
  | nil =>
      intro sp pulled rem h
      unfold completeSourceAux at h
      by_cases hb : bal sp
      · rw [if_pos hb] at h
        obtain ⟨h1, h2⟩ := Prod.mk.injEq .. ▸ Except.ok.inj h
        rw [← h1, ← h2]
        exact ⟨by simp, by simp, by simp⟩
      · rw [if_neg hb] at h
        simp at h
  | cons q rest' ih =>
      intro sp pulled rem h
      unfold completeSourceAux at h
      by_cases hb : bal sp
      · rw [if_pos hb] at h
        obtain ⟨h1, h2⟩ := Prod.mk.injEq .. ▸ Except.ok.inj h
        rw [← h1, ← h2]
        exact ⟨by simp, Nat.le_refl _, fun q hq => hq⟩
      · rw [if_neg hb] at h
        obtain ⟨idx, nl⟩ := q
        dsimp only at h
        by_cases hc : (pyStrip ((nl.drop si).take 4) = str ">>>" ∨
            pyStrip ((nl.drop si).take 4) = str "..." ∨
            pyStrip ((nl.drop si).take 4) = [])
        · rw [if_pos hc] at h
          cases haux : completeSourceAux bal si (sp ++ [(nl.drop si).drop 4]) rest' with
          | error e => rw [haux] at h; simp at h
          | ok pr =>
              obtain ⟨p1, p2⟩ := pr
              rw [haux] at h
              dsimp only at h
              obtain ⟨h1, h2⟩ := Prod.mk.injEq .. ▸ Except.ok.inj h
              obtain ⟨hg, hlen, hmem⟩ := ih _ p1 p2 haux
              rw [← h1, ← h2]
              refine ⟨?_, ?_, ?_⟩
              · intro l hl
                rcases List.mem_cons.mp hl with h3 | h3
                · rw [h3]; exact hc
                · exact hg l h3
              · exact le_trans hlen (by simp)
              · exact fun q hq => List.mem_cons_of_mem _ (hmem q hq)
        · rw [if_neg hc] at h
          simp at h

theorem complete_source_spec (bal : List Line → Bool) (si : Nat) (line : Line)
    (rest : List (Nat × Line)) (pulled : List Line) (rem : List (Nat × Line))
    (h : complete_source bal si line rest = .ok (pulled, rem)) :
    ∃ extra, pulled = line :: extra ∧ (∀ l ∈ extra, goodSrc4 si l) ∧
      rem.length ≤ rest.length ∧ (∀ q ∈ rem, q ∈ rest) := by
  unfold complete_source at h
  by_cases hentry : (pyStrip ((line.drop si).take 4) = str ">>>" ∨
      pyStrip ((line.drop si).take 4) = str "...")
  · rw [if_pos hentry] at h
    cases haux : completeSourceAux bal si [(line.drop si).drop 4] rest with
    | error e => rw [haux] at h; simp at h
    | ok pr =>
        obtain ⟨p1, p2⟩ := pr
        rw [haux] at h
        dsimp only at h
        obtain ⟨h1, h2⟩ := Prod.mk.injEq .. ▸ Except.ok.inj h
        obtain ⟨hg, hlen, hmem⟩ := completeSourceAux_spec bal si rest _ p1 p2 haux
        exact ⟨p1, h1.symm, hg, h2 ▸ hlen, h2 ▸ hmem⟩
  · rw [if_neg hentry] at h
    simp at h

theorem completeSourceAux_error (bal : List Line → Bool) (si : Nat) :
    ∀ (rest : List (Nat × Line)) (sp : List Line) (e : PErr),
      completeSourceAux bal si sp rest = .error e →
      e = .illFormed ∨ ∃ i l, e = .badIndentation i l := by
  intro rest
  induction rest with
  | nil =>
      intro sp e h
      unfold completeSourceAux at h
      by_cases hb : bal sp
      · rw [if_pos hb] at h; simp at h
      · rw [if_neg hb] at h
        exact Or.inl (Except.error.inj h).symm
  | cons q rest' ih =>
      intro sp e h
      unfold completeSourceAux at h
      by_cases hb : bal sp
      · rw [if_pos hb] at h; simp at h
      · rw [if_neg hb] at h
        obtain ⟨idx, nl⟩ := q
        dsimp only at h
        by_cases hc : (pyStrip ((nl.drop si).take 4) = str ">>>" ∨
            pyStrip ((nl.drop si).take 4) = str "..." ∨
            pyStrip ((nl.drop si).take 4) = [])
        · rw [if_pos hc] at h
          cases haux : completeSourceAux bal si (sp ++ [(nl.drop si).drop 4]) rest' with
          | error e' =>
              rw [haux] at h
              dsimp only at h
              rw [← Except.error.inj h]
              exact ih _ e' haux
          | ok pr => rw [haux] at h; dsimp only at h; simp at h
        · rw [if_neg hc] at h
          exact Or.inr ⟨idx, nl, (Except.error.inj h).symm⟩

theorem complete_source_error (bal : List Line → Bool) (si : Nat) (line : Line)
    (rest : List (Nat × Line)) (e : PErr)
    (hentry : pyStrip ((line.drop si).take 4) = str ">>>" ∨
      pyStrip ((line.drop si).take 4) = str "...")
    (h : complete_source bal si line rest = .error e) :
    e = .illFormed ∨ ∃ i l, e = .badIndentation i l := by
  unfold complete_source at h
  rw [if_pos hentry] at h
  cases haux : completeSourceAux bal si [(line.drop si).drop 4] rest with
  | error e' =>
      rw [haux] at h
      dsimp only at h
      rw [← Except.error.inj h]
      exact completeSourceAux_error bal si rest _ e' haux
  | ok pr => rw [haux] at h; dsimp only at h; simp at h

/-- Soundness of the labeler main loop: a successful run from previous
state `prev` with state indent `si` over clean lines produces a labeled
list satisfying `Wf prev si`. -/
theorem labelLoop_wf (bal : List Line → Bool) :
    ∀ (fuel : Nat) (xs : List (Nat × Line)) (prev : Label) (si : Nat)
      (out : List (Label × Line)),
      (∀ q ∈ xs, ∀ c ∈ q.2, c ≠ '\t' ∧ c ≠ '\n' ∧ c ≠ '\r') →
      labelLoop bal fuel prev si xs = .ok out → Wf prev si out := by
  intro fuel
  induction fuel with
  | zero =>
      intro xs prev si out _ h
      simp [labelLoop] at h
  | succ n ih =>
      intro xs prev si out hclean h
      cases xs with
      | nil =>
          simp only [labelLoop, Except.ok.injEq] at h
          rw [← h]
          exact Wf.nil prev si
      | cons q rest =>
          obtain ⟨i, l⟩ := q
          have hcl : ∀ c ∈ l, c ≠ '\t' ∧ c ≠ '\n' ∧ c ≠ '\r' :=
            hclean (i, l) (List.mem_cons_self _ _)
          have hclrest : ∀ q ∈ rest, ∀ c ∈ q.2, c ≠ '\t' ∧ c ≠ '\n' ∧ c ≠ '\r' :=
            fun q hq => hclean q (List.mem_cons_of_mem _ hq)
          simp only [labelLoop] at h
          cases hcurr : nextState prev si l with
          | TEXT =>
              rw [hcurr] at h
              dsimp only at h
              split at h
              · simp at h
              · rename_i out' hrec
                rw [← Except.ok.inj h]
                exact Wf.text prev si _ l out' (ih rest .TEXT _ out' hclrest hrec)
          | WANT =>
              rw [hcurr] at h
              dsimp only at h
              have hpw : prev = Label.DSRC ∨ prev = Label.WANT := by
                cases prev with
                | TEXT => exact absurd hcurr (nextState_text_ne_want si l)
                | DSRC => exact Or.inl rfl
                | WANT => exact Or.inr rfl
              split at h
              · simp at h
              · rename_i out' hrec
                rw [← Except.ok.inj h]
                exact Wf.want prev si _ l out' hpw (ih rest .WANT _ out' hclrest hrec)
          | DSRC =>
              rw [hcurr] at h
              dsimp only at h
              by_cases hp : prev = Label.DSRC
              · subst hp
                rw [if_neg (by simp)] at h
                split at h
                · simp at h
                · rename_i pr heq
                  split at h
                  · simp at h
                  · rename_i out2 hrec
                    obtain ⟨pulled, rem⟩ := pr
                    dsimp only at h hrec
                    obtain ⟨extra, hpe, hgext, _, hmem⟩ :=
                      complete_source_spec bal si l rest pulled rem heq
                    have hw2 : Wf .DSRC si out2 :=
                      ih rem .DSRC si out2 (fun q hq => hclrest q (hmem q hq)) hrec
                    have hgl : goodSrc4 si l := by
                      rcases nextState_dsrc_dsrc si l hcurr with hps | hps
                      · refine goodSrc4_of_take_ps1 si l ?_
                        have h1 := take_of_isPrefixOf (str ">>> ") (l.drop si) hps
                        have h4 : (str ">>> ").length = 4 := by decide
                        rw [h4] at h1
                        exact h1
                      · refine goodSrc4_of_take_ps2 si l ?_
                        have h1 := take_of_isPrefixOf (str "... ") (l.drop si) hps
                        have h4 : (str "... ").length = 4 := by decide
                        rw [h4] at h1
                        exact h1
                    rw [← Except.ok.inj h, hpe, List.map_cons, List.cons_append]
                    exact Wf.srcCont si l _ hgl (wf_src_append si extra out2 hgext hw2)
              · rw [if_pos (Ne.symm hp)] at h
                split at h
                · simp at h
                · rename_i pr heq
                  split at h
                  · simp at h
                  · rename_i out2 hrec
                    obtain ⟨pulled, rem⟩ := pr
                    dsimp only at h hrec
                    obtain ⟨extra, hpe, hgext, _, hmem⟩ :=
                      complete_source_spec bal (pyLineIndent l) l rest pulled rem heq
                    have hw2 : Wf .DSRC (pyLineIndent l) out2 :=
                      ih rem .DSRC (pyLineIndent l) out2
                        (fun q hq => hclrest q (hmem q hq)) hrec
                    have hps1 : (str ">>> ").isPrefixOf (pyStrip l) = true := by
                      cases prev with
                      | TEXT => exact nextState_text_dsrc si l hcurr
                      | WANT => exact nextState_want_dsrc si l hcurr
                      | DSRC => exact absurd rfl hp
                    have hgl : goodSrc4 (pyLineIndent l) l :=
                      goodSrc4_of_take_ps1 _ l (entry_take4_ps1 l hcl hps1)
                    rw [← Except.ok.inj h, hpe, List.map_cons, List.cons_append]
                    exact Wf.srcNew prev si l _ hp hgl
                      (wf_src_append (pyLineIndent l) extra out2 hgext hw2)

/-- Error classification of the labeler main loop: with clean lines and
sufficient fuel, the only failures are the unterminated-statement assert
(`illFormed`) and the bad-prefix pull (`badIndentation`). -/
theorem labelLoop_error (bal : List Line → Bool) :
    ∀ (fuel : Nat) (xs : List (Nat × Line)) (prev : Label) (si : Nat) (e : PErr),
      (∀ q ∈ xs, ∀ c ∈ q.2, c ≠ '\t' ∧ c ≠ '\n' ∧ c ≠ '\r') →
      xs.length < fuel →
      labelLoop bal fuel prev si xs = .error e →
      e = .illFormed ∨ ∃ i l, e = .badIndentation i l := by
  intro fuel
  induction fuel with
  | zero =>
      intro xs prev si e _ hlt _
      exact absurd hlt (by simp)
  | succ n ih =>
      intro xs prev si e hclean hlt h
      cases xs with
      | nil => simp [labelLoop] at h
      | cons q rest =>
          obtain ⟨i, l⟩ := q
          have hcl : ∀ c ∈ l, c ≠ '\t' ∧ c ≠ '\n' ∧ c ≠ '\r' :=
            hclean (i, l) (List.mem_cons_self _ _)
          have hclrest : ∀ q ∈ rest, ∀ c ∈ q.2, c ≠ '\t' ∧ c ≠ '\n' ∧ c ≠ '\r' :=
            fun q hq => hclean q (List.mem_cons_of_mem _ hq)
          have hltrest : rest.length < n := by
            simp only [List.length_cons] at hlt
            exact Nat.lt_of_succ_lt_succ hlt
          simp only [labelLoop] at h
          cases hcurr : nextState prev si l with
          | TEXT =>
              rw [hcurr] at h
              dsimp only at h
              split at h
              · rename_i e' hrec
                rw [← Except.error.inj h]
                exact ih rest .TEXT _ e' hclrest hltrest hrec
              · simp at h
          | WANT =>
              rw [hcurr] at h
              dsimp only at h
              split at h
              · rename_i e' hrec
                rw [← Except.error.inj h]
                exact ih rest .WANT _ e' hclrest hltrest hrec
              · simp at h
          | DSRC =>
              rw [hcurr] at h
              dsimp only at h
              by_cases hp : prev = Label.DSRC
              · subst hp
                rw [if_neg (by simp)] at h
                have hentry : pyStrip ((l.drop si).take 4) = str ">>>" ∨
                    pyStrip ((l.drop si).take 4) = str "..." := by
                  rcases nextState_dsrc_dsrc si l hcurr with hps | hps
                  · left
                    have h1 := take_of_isPrefixOf (str ">>> ") (l.drop si) hps
                    have h4 : (str ">>> ").length = 4 := by decide
                    rw [h4] at h1
                    rw [h1]
                    decide
                  · right
                    have h1 := take_of_isPrefixOf (str "... ") (l.drop si) hps
                    have h4 : (str "... ").length = 4 := by decide
                    rw [h4] at h1
                    rw [h1]
                    decide
                split at h
                · rename_i e' heq
                  rw [← Except.error.inj h]
                  exact complete_source_error bal si l rest e' hentry heq
                · rename_i pr heq
                  split at h
                  · rename_i e' hrec
                    rw [← Except.error.inj h]
                    obtain ⟨pulled, rem⟩ := pr
                    dsimp only at hrec
                    obtain ⟨extra, _, _, hlen, hmem⟩ :=
                      complete_source_spec bal si l rest pulled rem heq
                    exact ih rem .DSRC si e' (fun q hq => hclrest q (hmem q hq))
                      (lt_of_le_of_lt hlen hltrest) hrec
                  · simp at h
              · rw [if_pos (Ne.symm hp)] at h
                have hps1 : (str ">>> ").isPrefixOf (pyStrip l) = true := by
                  cases prev with
                  | TEXT => exact nextState_text_dsrc si l hcurr
                  | WANT => exact nextState_want_dsrc si l hcurr
                  | DSRC => exact absurd rfl hp
                have htake := entry_take4_ps1 l hcl hps1
                have hentry : pyStrip ((l.drop (pyLineIndent l)).take 4) = str ">>>" ∨
                    pyStrip ((l.drop (pyLineIndent l)).take 4) = str "..." := by
                  left
                  rw [htake]
                  decide
                split at h
                · rename_i e' heq
                  rw [← Except.error.inj h]
                  exact complete_source_error bal (pyLineIndent l) l rest e' hentry heq
                · rename_i pr heq
                  split at h
                  · rename_i e' hrec
                    rw [← Except.error.inj h]
                    obtain ⟨pulled, rem⟩ := pr
                    dsimp only at hrec
                    obtain ⟨extra, _, _, hlen, hmem⟩ :=
                      complete_source_spec bal (pyLineIndent l) l rest pulled rem heq
                    exact ih rem .DSRC (pyLineIndent l) e'
                      (fun q hq => hclrest q (hmem q hq))
                      (lt_of_le_of_lt hlen hltrest) hrec
                  · simp at h

/-- Successful labeling of clean lines satisfies the invariant from the
initial state. -/
theorem label_docsrc_lines_wf (bal : List Line → Bool) (lines : List Line)
    (hclean : ∀ l ∈ lines, ∀ c ∈ l, c ≠ '\t' ∧ c ≠ '\n' ∧ c ≠ '\r')
    (labeled : List (Label × Line))
    (h : label_docsrc_lines bal lines = .ok labeled) :
    Wf .TEXT 0 labeled := by
  refine labelLoop_wf bal (lines.length + 1) lines.enum .TEXT 0 labeled ?_ h
  intro q hq
  exact hclean q.2 (snd_mem_of_mem_enumFrom lines 0 q hq)

/-- Failures of the labeler on clean lines are the two assert causes. -/
theorem label_docsrc_lines_error (bal : List Line → Bool) (lines : List Line)
    (hclean : ∀ l ∈ lines, ∀ c ∈ l, c ≠ '\t' ∧ c ≠ '\n' ∧ c ≠ '\r')
    (e : PErr) (h : label_docsrc_lines bal lines = .error e) :
    e = .illFormed ∨ ∃ i l, e = .badIndentation i l := by
  refine labelLoop_error bal (lines.length + 1) lines.enum .TEXT 0 e ?_ ?_ h
  · intro q hq
    exact hclean q.2 (snd_mem_of_mem_enumFrom lines 0 q hq)
  · rw [List.enum_length]
    exact Nat.lt_succ_self _

/-! ### From the labeler invariant to the grouper -/

/-- The labeler invariant transfers to the grouped label runs. -/
theorem wf_ggs (p : Label) (si : Nat) (out : List (Label × Line))
    (hw : Wf p si out) : GgsCont p si (pyGroupBy out) := by
  induction hw with
  | nil p si =>
      rw [pyGroupBy, GgsCont]
      trivial
  | text p si si' l out hw ih =>
      simp only [pyGroupBy]
      cases hg : pyGroupBy out with
      | nil =>
          dsimp only
          rw [GgsCont]
          rw [if_neg (fun hc => absurd (hc.1.trans hc.2) (by decide)),
              if_neg (fun hc => absurd (hc.1.trans hc.2) (by decide))]
          rw [Ggs]
          exact ⟨by simp, by rw [Ggs]; trivial⟩
      | cons g gs' =>
          obtain ⟨k', ls⟩ := g
          rw [hg] at ih
          dsimp only
          by_cases hk : Label.TEXT = k'
          · rw [if_pos hk]
            subst hk
            rw [GgsCont] at ih
            rw [if_neg (fun hc => absurd hc.2 (by decide)),
                if_neg (fun hc => absurd hc.2 (by decide))] at ih
            rw [Ggs] at ih
            rw [GgsCont]
            rw [if_neg (fun hc => absurd (hc.1.trans hc.2) (by decide)),
                if_neg (fun hc => absurd (hc.1.trans hc.2) (by decide))]
            rw [Ggs]
            exact ⟨by simp, ih.2⟩
          · rw [if_neg hk]
            rw [GgsCont] at ih
            rw [if_neg (fun hc => absurd hc.2 (by decide)),
                if_neg (fun hc => absurd hc.2 (by decide))] at ih
            rw [GgsCont]
            rw [if_neg (fun hc => absurd (hc.1.trans hc.2) (by decide)),
                if_neg (fun hc => absurd (hc.1.trans hc.2) (by decide))]
            rw [Ggs]
            exact ⟨by simp, ih⟩
  | want p si si' l out hpw hw ih =>
      simp only [pyGroupBy]
      cases hg : pyGroupBy out with
      | nil =>
          dsimp only
          rcases hpw with hpD | hpW
          · subst hpD
            rw [GgsCont]
            rw [if_neg (fun hc => absurd hc.1 (by decide)),
                if_neg (fun hc => absurd hc.1 (by decide))]
            rw [Ggs]
            exact ⟨by simp, rfl, by rw [Ggs]; trivial⟩
          · subst hpW
            rw [GgsCont]
            rw [if_neg (fun hc => absurd hc.2 (by decide)), if_pos ⟨rfl, rfl⟩]
            rw [Ggs]
            trivial
      | cons g gs' =>
          obtain ⟨k', ls⟩ := g
          rw [hg] at ih
          dsimp only
          by_cases hk : Label.WANT = k'
          · rw [if_pos hk]
            subst hk
            rw [GgsCont] at ih
            rw [if_neg (fun hc => absurd hc.2 (by decide)), if_pos ⟨rfl, rfl⟩] at ih
            rcases hpw with hpD | hpW
            · subst hpD
              rw [GgsCont]
              rw [if_neg (fun hc => absurd hc.1 (by decide)),
                  if_neg (fun hc => absurd hc.1 (by decide))]
              rw [Ggs]
              exact ⟨by simp, rfl, ih⟩
            · subst hpW
              rw [GgsCont]
              rw [if_neg (fun hc => absurd hc.2 (by decide)), if_pos ⟨rfl, rfl⟩]
              exact ih
          · rw [if_neg hk]
            rw [GgsCont] at ih
            rw [if_neg (fun hc => absurd hc.2 (by decide)),
                if_neg (fun hc => hk hc.1.symm)] at ih
            rcases hpw with hpD | hpW
            · subst hpD
              rw [GgsCont]
              rw [if_neg (fun hc => absurd hc.1 (by decide)),
                  if_neg (fun hc => absurd hc.1 (by decide))]
              rw [Ggs]
              exact ⟨by simp, rfl, ih⟩
            · subst hpW
              rw [GgsCont]
              rw [if_neg (fun hc => absurd hc.2 (by decide)), if_pos ⟨rfl, rfl⟩]
              exact ih
  | srcNew p si l out hp hgl hw ih =>
      simp only [pyGroupBy]
      cases hg : pyGroupBy out with
      | nil =>
          dsimp only
          rw [GgsCont]
          rw [if_neg (fun hc => hp hc.2),
              if_neg (fun hc => absurd (hc.1.trans hc.2) (by decide))]
          rw [Ggs]
          refine ⟨by simp, ?_, by rw [Ggs]; trivial⟩
          intro x hx
          rw [List.mem_singleton.mp hx]
          exact hgl
      | cons g gs' =>
          obtain ⟨k', ls⟩ := g
          rw [hg] at ih
          dsimp only
          by_cases hk : Label.DSRC = k'
          · rw [if_pos hk]
            subst hk
            rw [GgsCont] at ih
            rw [if_pos ⟨rfl, rfl⟩] at ih
            rw [GgsCont]
            rw [if_neg (fun hc => hp hc.2),
                if_neg (fun hc => absurd (hc.1.trans hc.2) (by decide))]
            rw [Ggs]
            refine ⟨by simp, ?_, ih.2⟩
            intro x hx
            simp only [goodBlock, List.headI]
            rcases List.mem_cons.mp hx with h | h
            · rw [h]; exact hgl
            · exact ih.1 x h
          · rw [if_neg hk]
            rw [GgsCont] at ih
            rw [if_neg (fun hc => hk hc.1.symm),
                if_neg (fun hc => absurd hc.2 (by decide))] at ih
            rw [GgsCont]
            rw [if_neg (fun hc => hp hc.2),
                if_neg (fun hc => absurd (hc.1.trans hc.2) (by decide))]
            rw [Ggs]
            refine ⟨by simp, ?_, ih⟩
            intro x hx
            rw [List.mem_singleton.mp hx]
            exact hgl
  | srcCont si l out hgl hw ih =>
      simp only [pyGroupBy]
      cases hg : pyGroupBy out with
      | nil =>
          dsimp only
          rw [GgsCont]
          rw [if_pos ⟨rfl, rfl⟩]
          refine ⟨?_, by rw [Ggs]; trivial⟩
          intro x hx
          rw [List.mem_singleton.mp hx]
          exact hgl
      | cons g gs' =>
          obtain ⟨k', ls⟩ := g
          rw [hg] at ih
          dsimp only
          by_cases hk : Label.DSRC = k'
          · rw [if_pos hk]
            subst hk
            rw [GgsCont] at ih
            rw [if_pos ⟨rfl, rfl⟩] at ih
            rw [GgsCont]
            rw [if_pos ⟨rfl, rfl⟩]
            refine ⟨?_, ih.2⟩
            intro x hx
            rcases List.mem_cons.mp hx with h | h
            · rw [h]; exact hgl
            · exact ih.1 x h
          · rw [if_neg hk]
            rw [GgsCont] at ih
            rw [if_neg (fun hc => hk hc.1.symm),
                if_neg (fun hc => absurd hc.2 (by decide))] at ih
            rw [GgsCont]
            rw [if_pos ⟨rfl, rfl⟩]
            refine ⟨?_, ih⟩
            intro x hx
            rw [List.mem_singleton.mp hx]
            exact hgl

/-- At the initial state the continuation refinement collapses to plain
validity. -/
theorem ggsCont_text (si : Nat) (gs : List (Label × List Line))
    (h : GgsCont .TEXT si gs) : Ggs .TEXT gs := by
  cases gs with
  | nil => rw [Ggs]; trivial
  | cons g gs' =>
      obtain ⟨k, ls⟩ := g
      rw [GgsCont] at h
      rw [if_neg (fun hc => absurd hc.2 (by decide)),
          if_neg (fun hc => absurd hc.2 (by decide))] at h
      exact h

/-- On a valid run list the grouper succeeds and every emitted source
block is a nonempty good block. -/
theorem ggs_grouper :
    ∀ (gs : List (Label × List Line)) (p : Label) (prev : Option (List Line)),
      Ggs p gs →
      (∀ s, prev = some s → s ≠ [] ∧ goodBlock s) →
      (p = .DSRC → prev ≠ none) →
      ∃ res, group_labeled_lines prev gs = .ok res ∧
        ∀ s w, GChunk.srcC s w ∈ res → s ≠ [] ∧ goodBlock s := by
  intro gs
  induction gs with
  | nil =>
      intro p prev hg hprev hpd
      cases prev with
      | none => exact ⟨[], by rw [group_labeled_lines], by simp⟩
      | some s =>
          obtain ⟨hs, hgb⟩ := hprev s rfl
          refine ⟨[GChunk.srcC s []], ?_, ?_⟩
          · rw [group_labeled_lines]
            rw [if_pos hs]
          · intro s' w hsw
            rw [List.mem_singleton] at hsw
            obtain ⟨h1, h2⟩ := GChunk.srcC.inj hsw
            rw [h1]
            exact ⟨hs, hgb⟩
  | cons g rest ih =>
      obtain ⟨lbl, b⟩ := g
      intro p prev hg hprev hpd
      cases lbl with
      | TEXT =>
          rw [Ggs] at hg
          obtain ⟨hb, hg'⟩ := hg
          obtain ⟨more, hmore, hgood⟩ := ih .TEXT none hg' (fun s hs => by cases hs)
            (fun h => absurd h (by decide))
          cases prev with
          | none =>
              refine ⟨GChunk.textC b :: more, ?_, ?_⟩
              · rw [group_labeled_lines]
                rw [hmore]
                rfl
              · intro s w hsw
                rcases List.mem_cons.mp hsw with h' | h'
                · simp at h'
                · exact hgood s w h'
          | some s0 =>
              refine ⟨GChunk.srcC s0 [] :: GChunk.textC b :: more, ?_, ?_⟩
              · rw [group_labeled_lines]
                rw [hmore]
                rfl
              · intro s w hsw
                rcases List.mem_cons.mp hsw with h' | h'
                · obtain ⟨h1, h2⟩ := GChunk.srcC.inj h'
                  rw [h1]
                  exact hprev s0 rfl
                · rcases List.mem_cons.mp h' with h2 | h2
                  · simp at h2
                  · exact hgood s w h2
      | WANT =>
          rw [Ggs] at hg
          obtain ⟨hb, hpD, hg'⟩ := hg
          have hne := hpd hpD
          cases prev with
          | none => exact absurd rfl hne
          | some s =>
              obtain ⟨hs, hgb⟩ := hprev s rfl
              obtain ⟨more, hmore, hgood⟩ := ih .WANT none hg' (fun s hs => by cases hs)
                (fun h => absurd h (by decide))
              refine ⟨GChunk.srcC s b :: more, ?_, ?_⟩
              · rw [group_labeled_lines]
                rw [hmore]
              · intro s' w hsw
                rcases List.mem_cons.mp hsw with h | h
                · obtain ⟨h1, h2⟩ := GChunk.srcC.inj h
                  rw [h1]
                  exact ⟨hs, hgb⟩
                · exact hgood s' w h
      | DSRC =>
          rw [Ggs] at hg
          obtain ⟨hb, hgb, hg'⟩ := hg
          obtain ⟨res, hres, hgood⟩ := ih .DSRC (some b) hg'
            (fun s hs => by rw [← Option.some.inj hs]; exact ⟨hb, hgb⟩)
            (fun _ => Option.some_ne_none b)
          exact ⟨res, by rw [group_labeled_lines]; exact hres, hgood⟩

/-! ### The per-part prefix invariant -/

theorem pySliceO_map (f : Line → Line) (xs : List Line) (a : Nat) (b : Option Nat) :
    pySliceO (xs.map f) a b = (pySliceO xs a b).map f := by
  cases b with
  | none => simp [pySliceO]
  | some b => simp [pySliceO, pySlice]

theorem mem_pySliceO (xs : List Line) (a : Nat) (b : Option Nat) (x : Line)
    (hx : x ∈ pySliceO xs a b) : x ∈ xs := by
  cases b with
  | none => exact List.mem_of_mem_drop hx
  | some b => exact List.mem_of_mem_take (List.mem_of_mem_drop hx)

/-- `_package_chunk` on a nonempty good source block emits only parts
satisfying the prefix invariant. -/
theorem package_chunk_partOk (C : Collab) (repl : Bool) (s w : List Line)
    (ln : Nat) (ps : List DoctestPart) (hs : s ≠ []) (hgb : goodBlock s)
    (hok : package_chunk C repl s w ln = .ok ps) :
    ∀ p ∈ ps, partPrefixOk p := by
  cases s with
  | nil => exact absurd rfl hs
  | cons first srest =>
      simp only [package_chunk] at hok
      have hgood : ∀ l' ∈ (first :: srest).map (fun q => q.drop (pyLineIndent first)),
          pyStrip (l'.take 4) = str ">>>" ∨ pyStrip (l'.take 4) = str "..." ∨
            pyStrip (l'.take 4) = [] := by
        intro l' hl'
        rcases List.mem_map.mp hl' with ⟨l0, hl0, rfl⟩
        have hg := hgb l0 hl0
        simp only [List.headI] at hg
        exact hg
      cases hloc : locate_ps1_linenos C
          ((first :: srest).map (fun q => q.drop (pyLineIndent first))) with
      | error e => rw [hloc] at hok; simp at hok
      | ok pr =>
          obtain ⟨ps1, ev⟩ := pr
          rw [hloc] at hok
          dsimp only at hok
          obtain ⟨specs, m, s1f, hps⟩ := chunkParts_shape C repl _ _ _ ps1 ev ln ps hok
          intro p hp
          rw [hps] at hp
          rcases List.mem_append.mp hp with hmem | hmem
          · rcases List.mem_map.mp hmem with ⟨ab, _, rfl⟩
            refine ⟨pySliceO ((first :: srest).map
                (fun q => q.drop (pyLineIndent first))) ab.1 ab.2, ?_, ?_, ?_⟩
            · rfl
            · exact pySliceO_map (fun l => l.drop 4)
                ((first :: srest).map (fun q => q.drop (pyLineIndent first))) ab.1 ab.2
            · intro l hl
              exact hgood l (mem_pySliceO _ _ _ l hl)
          · rw [List.mem_singleton] at hmem
            rw [hmem]
            refine ⟨pySliceO ((first :: srest).map
                (fun q => q.drop (pyLineIndent first))) s1f none, ?_, ?_, ?_⟩
            · rfl
            · exact pySliceO_map (fun l => l.drop 4)
                ((first :: srest).map (fun q => q.drop (pyLineIndent first))) s1f none
            · intro l hl
              exact hgood l (mem_pySliceO _ _ _ l hl)

/-- `_package_groups` on good groups emits only invariant-satisfying
parts. -/
theorem package_groups_partOk (C : Collab) (repl : Bool) :
    ∀ (gs : List GChunk) (ln : Nat) (items : List PItem),
      (∀ s w, GChunk.srcC s w ∈ gs → s ≠ [] ∧ goodBlock s) →
      package_groups C repl gs ln = .ok items →
      ∀ p, PItem.part p ∈ items → partPrefixOk p := by
  intro gs
  induction gs with
  | nil =>
      intro ln items _ hok p hp
      rw [package_groups] at hok
      rw [← Except.ok.inj hok] at hp
      simp at hp
  | cons g rest ih =>
      intro ln items hgs hok p hp
      cases g with
      | srcC s w =>
          rw [package_groups] at hok
          cases hpc : package_chunk C repl s w ln with
          | error e => rw [hpc] at hok; simp at hok
          | ok ps =>
              rw [hpc] at hok
              dsimp only at hok
              cases hrec : package_groups C repl rest (ln + s.length + w.length) with
              | error e => rw [hrec] at hok; simp at hok
              | ok more =>
                  rw [hrec] at hok
                  dsimp only at hok
                  rw [← Except.ok.inj hok] at hp
                  rcases List.mem_append.mp hp with h | h
                  · rcases List.mem_map.mp h with ⟨p0, hp0, hpe⟩
                    rw [← PItem.part.inj hpe]
                    have hsw := hgs s w (List.mem_cons_self _ _)
                    exact package_chunk_partOk C repl s w ln ps hsw.1 hsw.2 hpc p0 hp0
                  · exact ih _ more (fun a b h' => hgs a b (List.mem_cons_of_mem _ h'))
                      hrec p h
      | textC b =>
          rw [package_groups] at hok
          cases hrec : package_groups C repl rest (ln + b.length) with
          | error e => rw [hrec] at hok; simp at hok
          | ok more =>
              rw [hrec] at hok
              dsimp only at hok
              rw [← Except.ok.inj hok] at hp
              rcases List.mem_cons.mp hp with h | h
              · simp at h
              · exact ih _ more (fun a b h' => hgs a b (List.mem_cons_of_mem _ h'))
                  hrec p h

/-- Claim C2 (amended): for every `DoctestPart` emitted by a successful
`parse`, the original lines are recorded, `exec_lines` equals
`orig_lines` with the first four characters of every line removed, and
the first four characters of every original line strip to `">>>"`,
`"..."` or the empty string. -/
theorem C2_amended_prefix_invariant (C : Collab) (repl : Bool) (s : List Char)
    (info : Option Nat) (items : List PItem)
    (hok : parsePy C repl (.str s) info = .ok items) :
    ∀ p, PItem.part p ∈ items →
      ∃ o, p.orig_lines = some o ∧
        p.exec_lines = o.map (fun l => l.drop 4) ∧
        ∀ l ∈ o, pyStrip (l.take 4) = str ">>>" ∨ pyStrip (l.take 4) = str "..." ∨
          pyStrip (l.take 4) = [] := by
  rw [parsePy, parse] at hok
  cases hpl : parseLines C repl (prepLines s) with
  | error e => rw [hpl] at hok; simp at hok
  | ok its =>
      rw [hpl] at hok
      dsimp only at hok
      rw [← Except.ok.inj hok]
      rw [parseLines] at hpl
      cases hlab : label_docsrc_lines C.is_balanced (prepLines s) with
      | error e => rw [hlab] at hpl; simp at hpl
      | ok labeled =>
          rw [hlab] at hpl
          dsimp only at hpl
          have hwf : Wf .TEXT 0 labeled :=
            label_docsrc_lines_wf _ _ (prepLines_clean s) labeled hlab
          have hggs : Ggs .TEXT (pyGroupBy labeled) :=
            ggsCont_text 0 _ (wf_ggs _ _ _ hwf)
          obtain ⟨res, hres, hgood⟩ := ggs_grouper (pyGroupBy labeled) .TEXT none hggs
            (fun a ha => by cases ha) (fun h => absurd h (by decide))
          cases hgrp : group_labeled_lines none (pyGroupBy labeled) with
          | error e => rw [hgrp] at hres; simp at hres
          | ok grouped =>
              rw [hgrp] at hpl
              dsimp only at hpl
              rw [hgrp] at hres
              have hge : grouped = res := Except.ok.inj hres
              intro p hp
              exact package_groups_partOk C repl grouped 0 its
                (fun a b h' => hgood a b (hge ▸ h')) hpl p hp

/-- Witness for C2 (amended) at the blank-pull docstring. -/
theorem C2_amended_prefix_invariant_witness :
    ∃ o, c2DemoPart.orig_lines = some o ∧
      c2DemoPart.exec_lines = o.map (fun l => l.drop 4) ∧
      ∀ l ∈ o, pyStrip (l.take 4) = str ">>>" ∨ pyStrip (l.take 4) = str "..." ∨
        pyStrip (l.take 4) = [] :=
  C2_amended_prefix_invariant c2Collab false (str ">>> x = [1,\n\n>>> 2]") none
    [.part c2DemoPart] (by decide) c2DemoPart (by simp)

/-! ### Error classification of the packaging phase -/

theorem locate_ps1_linenos_error (C : Collab) (src : List Line) (e : PErr)
    (h : locate_ps1_linenos C src = .error e) :
    e = .astSyntaxError ∨ e = .indexError := by
  simp only [locate_ps1_linenos] at h
  cases hast : C.astParse (joinNL (execHacked src)) with
  | error a =>
      rw [hast] at h
      dsimp only at h
      exact Or.inl (Except.error.inj h).symm
  | ok nodes =>
      rw [hast] at h
      dsimp only at h
      cases hlast : nodes.getLast? with
      | none =>
          rw [hlast] at h
          dsimp only at h
          exact Or.inr (Except.error.inj h).symm
      | some lastNode =>
          rw [hlast] at h
          simp at h

theorem stepOf_error (C : Collab) (repl : Bool) (ex src : List Line)
    (m : List (Nat × List Directive)) (wl : List Line) (ev : Bool)
    (ps1 : List Nat) (ln : Nat) (init : List DoctestPart × Nat) (e : PErr)
    (h : stepOf C repl ex src m wl ev ps1 ln init = .error e) :
    e = .indexError := by
  unfold stepOf at h
  by_cases hr : repl = true
  · rw [if_pos hr] at h; simp at h
  · rw [if_neg hr] at h
    by_cases hwe : wl ≠ [] ∧ ev = true
    · rw [if_pos hwe] at h
      cases hgl : ps1.getLast? with
      | none =>
          rw [hgl] at h
          exact (Except.error.inj h).symm
      | some s2 =>
          rw [hgl] at h
          dsimp only at h
          by_cases hs2 : s2 ≠ init.2
          · rw [if_pos hs2] at h; simp at h
          · rw [if_neg hs2] at h; simp at h
    · rw [if_neg hwe] at h; simp at h

theorem chunkParts_error (C : Collab) (repl : Bool) (ex src wl : List Line)
    (ps1 : List Nat) (ev : Bool) (ln : Nat) (e : PErr)
    (h : chunkParts C repl ex src wl ps1 ev ln = .error e) :
    e = .indexError := by
  unfold chunkParts at h
  dsimp only at h
  cases hstep : stepOf C repl ex src (breakStateOf C ex ps1).2 wl ev ps1 ln
      (initOf C repl ex src (breakStateOf C ex ps1).2 (breakStateOf C ex ps1).1
        ps1 ln) with
  | error e' =>
      rw [hstep] at h
      dsimp only at h
      rw [← Except.error.inj h]
      exact stepOf_error C repl ex src _ wl ev ps1 ln _ e' hstep
  | ok pf =>
      rw [hstep] at h
      simp at h

theorem package_chunk_error (C : Collab) (repl : Bool)
    (rs rw0 : List Line) (ln : Nat) (e : PErr)
    (h : package_chunk C repl rs rw0 ln = .error e) :
    e = .astSyntaxError ∨ e = .indexError := by
  cases rs with
  | nil =>
      rw [package_chunk] at h
      exact Or.inr (Except.error.inj h).symm
  | cons first srest =>
      simp only [package_chunk] at h
      cases hloc : locate_ps1_linenos C
          ((first :: srest).map (fun q => q.drop (pyLineIndent first))) with
      | error e' =>
          rw [hloc] at h
          dsimp only at h
          rw [← Except.error.inj h]
          exact locate_ps1_linenos_error C _ e' hloc
      | ok pr =>
          obtain ⟨ps1, ev⟩ := pr
          rw [hloc] at h
          dsimp only at h
          exact Or.inr (chunkParts_error C repl _ _ _ ps1 ev ln e h)

theorem package_groups_error (C : Collab) (repl : Bool) :
    ∀ (gs : List GChunk) (ln : Nat) (e : PErr),
      package_groups C repl gs ln = .error e →
      e = .astSyntaxError ∨ e = .indexError := by
  intro gs
  induction gs with
  | nil =>
      intro ln e h
      rw [package_groups] at h
      simp at h
  | cons g rest ih =>
      intro ln e h
      cases g with
      | srcC s w =>
          rw [package_groups] at h
          cases hpc : package_chunk C repl s w ln with
          | error e' =>
              rw [hpc] at h
              dsimp only at h
              rw [← Except.error.inj h]
              exact package_chunk_error C repl s w ln e' hpc
          | ok ps =>
              rw [hpc] at h
              dsimp only at h
              cases hrec : package_groups C repl rest (ln + s.length + w.length) with
              | error e' =>
                  rw [hrec] at h
                  dsimp only at h
                  rw [← Except.error.inj h]
                  exact ih _ e' hrec
              | ok more => rw [hrec] at h; simp at h
      | textC b =>
          rw [package_groups] at h
          cases hrec : package_groups C repl rest (ln + b.length) with
          | error e' =>
              rw [hrec] at h
              dsimp only at h
              rw [← Except.error.inj h]
              exact ih _ e' hrec
          | ok more => rw [hrec] at h; simp at h

/-- Error classification of the whole pipeline body on prepared lines:
grouping never fails after a successful labeling, so every failure is
one of the four real causes. -/
theorem parseLines_error (C : Collab) (repl : Bool) (lines : List Line)
    (hclean : ∀ l ∈ lines, ∀ c ∈ l, c ≠ '\t' ∧ c ≠ '\n' ∧ c ≠ '\r')
    (e : PErr) (h : parseLines C repl lines = .error e) :
    e = .illFormed ∨ (∃ i l, e = .badIndentation i l) ∨
      e = .astSyntaxError ∨ e = .indexError := by
  rw [parseLines] at h
  cases hlab : label_docsrc_lines C.is_balanced lines with
  | error e' =>
      rw [hlab] at h
      dsimp only at h
      rw [← Except.error.inj h]
      rcases label_docsrc_lines_error C.is_balanced lines hclean e' hlab with h' | h'
      · exact Or.inl h'
      · exact Or.inr (Or.inl h')
  | ok labeled =>
      rw [hlab] at h
      dsimp only at h
      have hwf : Wf .TEXT 0 labeled :=
        label_docsrc_lines_wf _ _ hclean labeled hlab
      have hggs : Ggs .TEXT (pyGroupBy labeled) :=
        ggsCont_text 0 _ (wf_ggs _ _ _ hwf)
      obtain ⟨res, hres, _⟩ := ggs_grouper (pyGroupBy labeled) .TEXT none hggs
        (fun a ha => by cases ha) (fun hc => absurd hc (by decide))
      cases hgrp : group_labeled_lines none (pyGroupBy labeled) with
      | error e' => rw [hgrp] at hres; simp at hres
      | ok grouped =>
          rw [hgrp] at h
          dsimp only at h
          rcases package_groups_error C repl grouped 0 e h with h' | h'
          · exact Or.inr (Or.inr (Or.inl h'))
          · exact Or.inr (Or.inr (Or.inr h'))

/-- Claim C7 (amended): `parse` surfaces exactly one error kind — a
`DoctestParseError` wrapping the input string, the caller info and the
underlying cause — it fails exactly when the labeling/grouping/packaging
pipeline fails on the prepared lines, and the cause is one of: the
unterminated-statement assert, the bad-prefix pull assert, the AST
parser raising, or an empty-list final-statement lookup. -/
theorem C7_amended_error_causes (C : Collab) (repl : Bool) (s : List Char)
    (info : Option Nat) :
    (∀ err, parsePy C repl (.str s) info = .error err →
      ∃ e, err = .doctestParseError s info e ∧
        parseLines C repl (prepLines s) = .error e ∧
        (e = .illFormed ∨ (∃ i l, e = .badIndentation i l) ∨
          e = .astSyntaxError ∨ e = .indexError)) ∧
    (∀ e, parseLines C repl (prepLines s) = .error e →
      parsePy C repl (.str s) info = .error (.doctestParseError s info e)) := by
  constructor
  · intro err herr
    rw [parsePy, parse] at herr
    cases hpl : parseLines C repl (prepLines s) with
    | ok its => rw [hpl] at herr; simp at herr
    | error e =>
        rw [hpl] at herr
        dsimp only at herr
        refine ⟨e, (Except.error.inj herr).symm, rfl, ?_⟩
        exact parseLines_error C repl (prepLines s) (prepLines_clean s) e hpl
  · intro e he
    rw [parsePy, parse, he]

/-- Witness for C7 (amended) at the comment-only docstring. -/
theorem C7_amended_error_causes_witness :
    ∃ e, PyError.doctestParseError (str ">>>  # hi") none PErr.indexError =
        .doctestParseError (str ">>>  # hi") none e ∧
      parseLines c7Collab false (prepLines (str ">>>  # hi")) = .error e ∧
      (e = .illFormed ∨ (∃ i l, e = .badIndentation i l) ∨
        e = .astSyntaxError ∨ e = .indexError) :=
  (C7_amended_error_causes c7Collab false (str ">>>  # hi") none).1
    (.doctestParseError (str ">>>  # hi") none .indexError) (by decide)

end Xdoctest
